import Mathlib

set_option maxHeartbeats 1000000
set_option maxRecDepth 10000

/-!
Shallow embedding of the line-oriented text editor `ve.py` (class `VeEditor`).

Conventions of the embedding:
* Python strings are `List Char`; command tokens (the result of `arg.split()`)
  are Lean `String`s converted to character lists where the source slices them.
* Python `int`s are `Int`; Python string/list slicing, indexing, insertion and
  `del` obey Python's clamping and negative-index semantics via the `py*`
  helpers below; `IndexError` is `none`.
* Printing is modelled by the `Res.err` message tag; an uncaught Python
  exception (which kills the `cmd.cmdloop` session) is `Res.crash`.
* The filesystem is external: `do_open` takes the file's text as
  `Option (List Char)` (`none` = `FileNotFoundError`), `do_s` leaves the state
  unchanged and the saved text is given by `saveText`.
-/

abbrev Line := List Char

/-- Python slice-bound normalisation for a sequence of length `n`
(negative indices count from the end, everything is clamped to `[0, n]`). -/
def pySliceIdx (n : Nat) (i : Int) : Nat :=
  if i < 0 then ((n : Int) + i).toNat else min i.toNat n

/-- Python `s[a:b]`. -/
def pySlice (s : List α) (a b : Int) : List α :=
  (s.take (pySliceIdx s.length b)).drop (pySliceIdx s.length a)

/-- Python `s[a:]`. -/
def pyDrop (s : List α) (a : Int) : List α :=
  s.drop (pySliceIdx s.length a)

/-- Python `s[:b]`. -/
def pyTake (s : List α) (b : Int) : List α :=
  s.take (pySliceIdx s.length b)

/-- Python `l[i]`; `none` models `IndexError`. -/
def pyGet (l : List α) (i : Int) : Option α :=
  let j : Int := if i < 0 then (l.length : Int) + i else i
  if 0 ≤ j ∧ j < (l.length : Int) then l[j.toNat]? else none

/-- Python `l[i] = x`; `none` models `IndexError`. -/
def pySet (l : List α) (i : Int) (x : α) : Option (List α) :=
  let j : Int := if i < 0 then (l.length : Int) + i else i
  if 0 ≤ j ∧ j < (l.length : Int) then some (l.set j.toNat x) else none

/-- Python `del l[i]`; `none` models `IndexError`. -/
def pyDelAt (l : List α) (i : Int) : Option (List α) :=
  let j : Int := if i < 0 then (l.length : Int) + i else i
  if 0 ≤ j ∧ j < (l.length : Int) then some (l.eraseIdx j.toNat) else none

/-- Python `l.insert(i, x)` (which clamps the position into `[0, len(l)]`). -/
def pyInsert (l : List α) (i : Int) (x : α) : List α :=
  let j := pySliceIdx l.length i
  l.take j ++ x :: l.drop j

/-- Python `del l[a:b]` (removes nothing when the slice is empty). -/
def pyDelSlice (l : List α) (a b : Int) : List α :=
  let lo := pySliceIdx l.length a
  let hi := pySliceIdx l.length b
  if lo < hi then l.take lo ++ l.drop hi else l

/-- Python `str.split(sep)` for a one-character separator, on char lists. -/
def pySplitCh (sep : Char) : List Char → List Line
  | [] => [[]]
  | c :: cs =>
    if c = sep then [] :: pySplitCh sep cs
    else
      match pySplitCh sep cs with
      | [] => [[c]]
      | l :: ls => (c :: l) :: ls

/-- Python `content.split('\n')`. -/
def pySplitNl (t : List Char) : List Line := pySplitCh '\n' t

/-- `'\n'.join(lines)` on char lists. -/
def joinNl : List Line → List Char
  | [] => []
  | [x] => x
  | x :: y :: xs => x ++ '\n' :: joinNl (y :: xs)

/-- Decimal-digit accumulator used by `pyInt`. -/
def digitsValAux (acc : Nat) : List Char → Option Nat
  | [] => some acc
  | c :: cs => if c.isDigit then digitsValAux (acc * 10 + (c.toNat - 48)) cs else none

/-- Python `int(token)` for whitespace-free tokens (an optional sign followed
by at least one decimal digit); `none` models `ValueError`. -/
def pyInt (s : String) : Option Int :=
  match s.toList with
  | [] => none
  | c :: cs =>
    if c = '-' then
      match cs with
      | [] => none
      | _ :: _ => (digitsValAux 0 cs).map (fun v => -(v : Int))
    else if c = '+' then
      match cs with
      | [] => none
      | _ :: _ => (digitsValAux 0 cs).map (fun v => (v : Int))
    else (digitsValAux 0 (c :: cs)).map (fun v => (v : Int))

/-- Python `str.lower()`. -/
def pyLower (s : String) : String := String.mk (s.toList.map Char.toLower)

/-- `f.readlines()`: splits after every `'\n'`, keeping the terminator;
an empty file gives no lines. -/
def readlines : List Char → List Line
  | [] => []
  | c :: cs =>
    if c = '\n' then ['\n'] :: readlines cs
    else
      match readlines cs with
      | [] => [[c]]
      | l :: ls => (c :: l) :: ls

/-- Python `line.rstrip('\n')`. -/
def rstripNl (l : Line) : Line :=
  (l.reverse.dropWhile (fun c => c == '\n')).reverse

/-- The line list `do_open` builds from an existing file's text
(`[line.rstrip('\n') for line in f.readlines()]`). -/
def loadLines (t : List Char) : List Line :=
  (readlines t).map rstripNl

/-- The editor cursor (`self.state['cursor']`), 0-based. -/
structure Cursor where
  row : Int
  col : Int
deriving Repr, DecidableEq

/-- `self.state` of `VeEditor`. -/
structure EState where
  is_active : Bool
  current_file : Option String
  content : List Line
  cursor : Cursor
  clipboard : Line
deriving Repr, DecidableEq

/-- Result of one command: normal completion, a reported (printed) failure,
or an uncaught exception that kills the session. Each carries the state
as it is at that moment. -/
inductive Res where
  | ok (s : EState)
  | err (s : EState) (msg : String)
  | crash (s : EState)
deriving Repr, DecidableEq

/-- The state carried by a result. -/
def Res.state : Res → EState
  | .ok s => s
  | .err s _ => s
  | .crash s => s

/-- Did the command complete without a reported failure or exception? -/
def Res.isOk : Res → Bool
  | .ok _ => true
  | _ => false

/-- `VeEditor.__init__`. -/
def initState : EState :=
  { is_active := false, current_file := none, content := [],
    cursor := { row := 0, col := 0 }, clipboard := [] }

/-- `'\n'.join(self.state['content'])`, the text `do_s` writes to disk. -/
def saveText (s : EState) : List Char := joinNl s.content

example : pySlice "abcdef".toList 1 3 = "bc".toList := by decide
example : pySlice "abcdef".toList 2 100 = "cdef".toList := by decide
example : pySlice "abcdef".toList (-2) 6 = "ef".toList := by decide
example : pyTake "ab".toList 5 = "ab".toList := by decide
example : pyDrop "cdef".toList 4 = ([] : Line) := by decide
example : pyGet ["a".toList, "b".toList] (-1) = some "b".toList := by decide
example : pyGet ["a".toList, "b".toList] 2 = none := by decide
example : pySplitNl "x\ny".toList = ["x".toList, "y".toList] := by decide
example : pySplitNl [] = [[]] := by decide
example : readlines "a\nb".toList = ["a\n".toList, "b".toList] := by decide
example : readlines "a\n".toList = ["a\n".toList] := by decide
example : readlines [] = [] := by decide
example : loadLines "a\n\n".toList = ["a".toList, []] := by decide
example : loadLines (joinNl [[], []]) = [[]] := by decide
example : pyInt "12" = some 12 := by decide
example : pyInt "-3" = some (-3) := by decide
example : pyInt "1,2" = none := by decide
example : pyInt "x" = none := by decide
example : pyInt "" = none := by decide
example : pyLower "LeFt" = "left" := by decide
example : pyDelSlice [1, 2, 3, 4] 2 1 = [1, 2, 3, 4] := by decide
example : pyDelSlice [1, 2, 3, 4] 1 3 = [1, 4] := by decide

/-! ### The commands of `VeEditor` (`do_*` methods of `ve.py`) -/

/-- `do_open` (`ve.py` 37-63). `fc` is the file's text, `none` standing for
`FileNotFoundError` (new-file semantics). Note that `current_file` is set
before the file is read, and that `readlines` of an empty existing file
yields no lines at all. -/
def do_open (fc : Option (List Char)) (fname : String) (s : EState) : Res :=
  if fname = "" then .err s "filename required"
  else
    let s1 := { s with current_file := some fname }
    let s2 :=
      match fc with
      | some t => { s1 with content := loadLines t }
      | none => { s1 with content := [[]] }
    .ok { s2 with cursor := { row := 0, col := 0 }, is_active := true, clipboard := [] }

/-- `do_move` (`ve.py` 65-118). `args` is the token list `arg.split()`.
The count is parsed with a bare `int(args[1])` outside any `try`, so a
malformed count raises an uncaught `ValueError` (`Res.crash`). -/
def do_move (args : List String) (s : EState) : Res :=
  if s.is_active = false then .err s "no open file"
  else
    match args with
    | [] => .err s "direction required"
    | a0 :: rest =>
      let direction := pyLower a0
      if direction = "start" then
        .ok { s with cursor := { s.cursor with col := 0 } }
      else if direction = "end" then
        if s.content = [] then .ok { s with cursor := { s.cursor with col := 0 } }
        else
          match pyGet s.content s.cursor.row with
          | none => .crash s
          | some current_line =>
            .ok { s with cursor := { s.cursor with col := (current_line.length : Int) } }
      else
        match (match rest with | [] => some 1 | c :: _ => pyInt c) with
        | none => .crash s
        | some count =>
          if count ≤ 0 then .err s "count must be positive"
          else if s.content = [] then .err s "empty file"
          else
            match pyGet s.content s.cursor.row with
            | none => .crash s
            | some current_line =>
              if direction = "left" then
                .ok { s with cursor := { s.cursor with col := max 0 (s.cursor.col - count) } }
              else if direction = "right" then
                .ok { s with cursor :=
                        { s.cursor with col := min (current_line.length : Int) (s.cursor.col + count) } }
              else .err s "bad direction"

/-- `do_line` (`ve.py` 120-169). `arg` is the raw (stripped) argument. -/
def do_line (arg : String) (s : EState) : Res :=
  if s.is_active = false then .err s "no open file"
  else if s.content = [] then .err s "empty file"
  else if arg = "" then .err s "line number required"
  else if pyLower arg = "start" then
    match pyGet s.content 0 with
    | none => .crash s
    | some l0 =>
      .ok { s with cursor := { row := 0, col := min s.cursor.col (l0.length : Int) } }
  else if pyLower arg = "end" then
    let r : Int := (s.content.length : Int) - 1
    match pyGet s.content r with
    | none => .crash s
    | some l =>
      .ok { s with cursor := { row := r, col := min s.cursor.col (l.length : Int) } }
  else
    match pyInt arg with
    | none => .err s "invalid line command"
    | some n =>
      if n < 1 ∨ (s.content.length : Int) < n then .err s "line number out of range"
      else
        match pyGet s.content (n - 1) with
        | none => .crash s
        | some l =>
          .ok { s with cursor := { row := n - 1, col := min s.cursor.col (l.length : Int) } }

/-- `do_break` (`ve.py` 171-204). An empty buffer is first replaced by one
empty line with the cursor reset (this mutation survives even if the
bound check then fails, exactly as in the source). -/
def do_break (s : EState) : Res :=
  if s.is_active = false then .err s "no open file"
  else
    let s1 := if s.content = [] then
        { s with content := [[]], cursor := { row := 0, col := 0 } }
      else s
    let current_row := s1.cursor.row
    let current_col := s1.cursor.col
    if current_row < 0 ∨ (s1.content.length : Int) ≤ current_row then .err s1 "invalid cursor"
    else
      match pyGet s1.content current_row with
      | none => .crash s1
      | some current_line =>
        let part1 := pyTake current_line current_col
        let part2 := pyDrop current_line current_col
        match pySet s1.content current_row part1 with
        | none => .crash s1
        | some c1 =>
          let c2 := pyInsert c1 (current_row + 1) part2
          .ok { s1 with content := c2, cursor := { row := current_row + 1, col := 0 } }

/-- `do_write` (`ve.py` 206-233). `text` is the raw argument as characters. -/
def do_write (text : List Char) (s : EState) : Res :=
  if s.is_active = false then .err s "no open file"
  else if text = [] then .err s "text required"
  else
    let s1 := if s.content = [] then
        { s with content := [[]], cursor := { row := 0, col := 0 } }
      else s
    match pyGet s1.content s1.cursor.row with
    | none => .crash s1
    | some current_line =>
      let new_line := pyTake current_line s1.cursor.col ++ text ++ pyDrop current_line s1.cursor.col
      match pySet s1.content s1.cursor.row new_line with
      | none => .crash s1
      | some c' =>
        .ok { s1 with
              content := c',
              cursor := { s1.cursor with col := s1.cursor.col + (text.length : Int) } }

/-- `do_space` (`ve.py` 235-270). Unlike `do_move`, the count parse is inside
`try`, so a malformed count is only reported. -/
def do_space (arg : String) (s : EState) : Res :=
  if s.is_active = false then .err s "no open file"
  else
    let s1 := if s.content = [] then
        { s with content := [[]], cursor := { row := 0, col := 0 } }
      else s
    match (if arg = "" then some 1 else pyInt arg) with
    | none => .err s1 "invalid space count"
    | some count =>
      if count ≤ 0 then .err s1 "count must be positive"
      else
        let spaces := List.replicate count.toNat ' '
        match pyGet s1.content s1.cursor.row with
        | none => .crash s1
        | some current_line =>
          let new_line :=
            pyTake current_line s1.cursor.col ++ spaces ++ pyDrop current_line s1.cursor.col
          match pySet s1.content s1.cursor.row new_line with
          | none => .crash s1
          | some c' =>
            .ok { s1 with
                  content := c',
                  cursor := { s1.cursor with col := s1.cursor.col + count } }

/-- `delete_chars` (`ve.py` 391-424): delete `count` characters before the
cursor, or merge with the previous line when the cursor is at column 0.
It is called outside any `try`/`except`, so its `IndexError`s crash. -/
def delete_chars (count : Int) (s : EState) : Res :=
  let current_row := s.cursor.row
  let current_col := s.cursor.col
  if current_col = 0 then
    if current_row = 0 then .err s "at start of file"
    else
      let prev_row := current_row - 1
      match pyGet s.content prev_row, pyGet s.content current_row with
      | some prev_line, some current_line =>
        match pySet s.content prev_row (prev_line ++ current_line) with
        | none => .crash s
        | some c1 =>
          match pyDelAt c1 current_row with
          | none => .crash { s with content := c1 }
          | some c2 =>
            .ok { s with
                  content := c2,
                  cursor := { row := prev_row, col := (prev_line.length : Int) } }
      | _, _ => .crash s
  else
    match pyGet s.content current_row with
    | none => .crash s
    | some current_line =>
      let delete_count := min count current_col
      let new_line :=
        pyTake current_line (current_col - delete_count) ++ pyDrop current_line current_col
      match pySet s.content current_row new_line with
      | none => .crash s
      | some c' =>
        .ok { s with
              content := c',
              cursor := { s.cursor with col := current_col - delete_count } }

/-- Python `int(tok.split(',')[0]) - 1, int(tok.split(',')[1]) - 1`
(the `"row,col"` parsing shared verbatim by `do_del`, `do_copy`, `do_paste`);
`none` models the caught `ValueError`/`IndexError`. -/
def parsePair (t : String) : Option (Int × Int) :=
  match pySplitCh ',' t.toList with
  | p0 :: p1 :: _ =>
    match pyInt (String.mk p0), pyInt (String.mk p1) with
    | some r, some c => some (r - 1, c - 1)
    | _, _ => none
  | _ => none

/-- The `try` block of `do_del`'s range branch (`ve.py` 304-378), taking the
tokens after `"range"`. `len(args) == 3` in the source means exactly two such
tokens; any other shape falls into the cross-line branch, which reads only
the first two tokens. -/
def del_range (rest : List String) (s : EState) : Res :=
  match rest with
  | [a, b] =>
    match pyInt a, pyInt b with
    | some av, some bv =>
      let start_col := av - 1
      let end_col := bv - 1
      if start_col < 0 ∨ end_col < start_col then .err s "invalid range"
      else
        match pyGet s.content s.cursor.row with
        | none => .err s "invalid range format"
        | some current_line =>
          if (current_line.length : Int) ≤ end_col then .err s "end beyond line length"
          else
            let new_line := pyTake current_line start_col ++ pyDrop current_line (end_col + 1)
            match pySet s.content s.cursor.row new_line with
            | none => .err s "invalid range format"
            | some c' =>
              .ok { s with
                    content := c',
                    cursor := { s.cursor with col := min start_col (new_line.length : Int) } }
    | _, _ => .err s "invalid range format"
  | a :: b :: _ :: _ =>
    match parsePair a, parsePair b with
    | some (start_row, start_col), some (end_row, end_col) =>
      if start_row < 0 ∨ end_row < start_row ∨ (s.content.length : Int) ≤ end_row then
        .err s "invalid range"
      else if start_row = end_row then
        match pyGet s.content start_row with
        | none => .err s "invalid range format"
        | some current_line =>
          if start_col < 0 ∨ end_col < start_col ∨ (current_line.length : Int) ≤ end_col then
            .err s "invalid column range"
          else
            let new_line := pyTake current_line start_col ++ pyDrop current_line (end_col + 1)
            match pySet s.content start_row new_line with
            | none => .err s "invalid range format"
            | some c' =>
              .ok { s with content := c', cursor := { row := start_row, col := start_col } }
      else
        match pyGet s.content start_row with
        | none => .err s "invalid range format"
        | some start_line =>
          match pySet s.content start_row (pyTake start_line start_col) with
          | none => .err s "invalid range format"
          | some c1 =>
            match pyGet c1 end_row with
            | none => .err { s with content := c1 } "invalid range format"
            | some end_line =>
              let remaining := pyDrop end_line (end_col + 1)
              match pyGet c1 start_row with
              | none => .err { s with content := c1 } "invalid range format"
              | some cur =>
                match pySet c1 start_row (cur ++ remaining) with
                | none => .err { s with content := c1 } "invalid range format"
                | some c2 =>
                  let c3 := pyDelSlice c2 (start_row + 1) (end_row + 1)
                  .ok { s with
                        content := c3,
                        cursor := { row := start_row, col := start_col } }
    | _, _ => .err s "invalid range format"
  | [_] => .err s "invalid range format"
  | [] => .err s "invalid range format"

/-- `do_del` (`ve.py` 272-389). -/
def do_del (args : List String) (s : EState) : Res :=
  if s.is_active = false then .err s "no open file"
  else if s.content = [] then .err s "empty file"
  else
    match args with
    | [] => delete_chars 1 s
    | a0 :: rest =>
      if a0 = "range" then
        match rest with
        | [] => .err s "range required"
        | r0 :: _ =>
          if r0 = "all" then
            .ok { s with content := [[]], cursor := { row := 0, col := 0 } }
          else del_range rest s
      else
        match pyInt a0 with
        | none => .err s "count must be an integer"
        | some count =>
          if count ≤ 0 then .err s "count must be positive"
          else delete_chars count s

/-- Python `[content[i] for i in range(a, a + fuel)]`; `none` on the first
`IndexError`. -/
def midLinesAux (content : List Line) (a : Int) : Nat → Option (List Line)
  | 0 => some []
  | k + 1 =>
    match pyGet content a with
    | none => none
    | some l => (midLinesAux content (a + 1) k).map (fun t => l :: t)

/-- Python `[content[i] for i in range(a, b)]`. -/
def midLines (content : List Line) (a b : Int) : Option (List Line) :=
  midLinesAux content a (b - a).toNat

/-- The `try` block of `do_copy`'s range branch (`ve.py` 450-499), taking the
tokens after `"range"` (at least two). -/
def copy_range (rest : List String) (s : EState) : Res :=
  let parsed :=
    match rest with
    | [a, b] =>
      match pyInt a, pyInt b with
      | some av, some bv => some (s.cursor.row, av - 1, s.cursor.row, bv - 1)
      | _, _ => none
    | a :: b :: _ =>
      match parsePair a, parsePair b with
      | some (sr, sc), some (er, ec) => some (sr, sc, er, ec)
      | _, _ => none
    | _ => none
  match parsed with
  | none => .err s "copy failed"
  | some (start_row, start_col, end_row, end_col) =>
    if start_row < 0 ∨ end_row < start_row ∨ (s.content.length : Int) ≤ end_row then
      .err s "copy failed"
    else if start_row = end_row then
      match pyGet s.content start_row with
      | none => .err s "copy failed"
      | some line =>
        if start_col < 0 ∨ end_col < start_col ∨ (line.length : Int) ≤ end_col then
          .err s "copy failed"
        else .ok { s with clipboard := joinNl [pySlice line start_col (end_col + 1)] }
    else
      match pyGet s.content start_row with
      | none => .err s "copy failed"
      | some start_line =>
        match midLines s.content (start_row + 1) end_row with
        | none => .err s "copy failed"
        | some mids =>
          match pyGet s.content end_row with
          | none => .err s "copy failed"
          | some end_line =>
            .ok { s with clipboard :=
                    joinNl (pyDrop start_line start_col :: mids ++ [pyTake end_line (end_col + 1)]) }

/-- `do_copy` (`ve.py` 426-502). On an empty buffer it reports a failure but
still clears the clipboard. -/
def do_copy (args : List String) (s : EState) : Res :=
  if s.is_active = false then .err s "no open file"
  else if s.content = [] then .err { s with clipboard := [] } "empty file"
  else
    match args with
    | [] => .ok { s with clipboard := joinNl s.content }
    | a0 :: rest =>
      if a0 = "range" ∧ 2 ≤ rest.length then copy_range rest s
      else .err s "invalid copy command"

/-- `paste_content` (`ve.py` 594-622). For a multi-segment clipboard the part
of the current line after the cursor is discarded, not reattached. -/
def paste_content (content_str : Line) (s : EState) : Res :=
  let lines := pySplitNl content_str
  match pyGet s.content s.cursor.row with
  | none => .crash s
  | some current_line =>
    match lines with
    | [] => .crash s
    | [l0] =>
      let new_line :=
        pyTake current_line s.cursor.col ++ l0 ++ pyDrop current_line s.cursor.col
      match pySet s.content s.cursor.row new_line with
      | none => .crash s
      | some c' =>
        .ok { s with
              content := c',
              cursor := { s.cursor with col := s.cursor.col + (l0.length : Int) } }
    | l0 :: rem =>
      let new_current := pyTake current_line s.cursor.col ++ l0
      match pySet s.content s.cursor.row new_current with
      | none => .crash s
      | some c1 =>
        let c2 := rem.reverse.foldl (fun c l => pyInsert c (s.cursor.row + 1) l) c1
        let new_col : Int :=
          match rem.getLast? with
          | some ll => (ll.length : Int)
          | none => s.cursor.col + (l0.length : Int)
        .ok { s with
              content := c2,
              cursor := { row := s.cursor.row + (rem.length : Int), col := new_col } }

/-- The `try` block of `do_paste`'s range branch (`ve.py` 529-589):
cut the range (with no row validation at all), store it in the clipboard and
re-insert it at the collapsed cursor. A crash inside `paste_content` is
caught here (the `except` at `ve.py` 588). -/
def paste_range (rest : List String) (s : EState) : Res :=
  let parsed :=
    match rest with
    | [a, b] =>
      match pyInt a, pyInt b with
      | some av, some bv => some (s.cursor.row, av - 1, s.cursor.row, bv - 1)
      | _, _ => none
    | a :: b :: _ =>
      match parsePair a, parsePair b with
      | some (sr, sc), some (er, ec) => some (sr, sc, er, ec)
      | _, _ => none
    | _ => none
  match parsed with
  | none => .err s "cut paste failed"
  | some (start_row, start_col, end_row, end_col) =>
    let cut :=
      if start_row = end_row then
        match pyGet s.content start_row with
        | none => none
        | some line => some [pySlice line start_col (end_col + 1)]
      else
        match pyGet s.content start_row with
        | none => none
        | some start_line =>
          match midLines s.content (start_row + 1) end_row with
          | none => none
          | some mids =>
            match pyGet s.content end_row with
            | none => none
            | some end_line =>
              some (pyDrop start_line start_col :: mids ++ [pyTake end_line (end_col + 1)])
    match cut with
    | none => .err s "cut paste failed"
    | some cut_parts =>
      let cut_text := joinNl cut_parts
      let deleted : Res :=
        if start_row = end_row then
          match pyGet s.content start_row with
          | none => .err s "cut paste failed"
          | some line =>
            let new_line := pyTake line start_col ++ pyDrop line (end_col + 1)
            match pySet s.content start_row new_line with
            | none => .err s "cut paste failed"
            | some c' =>
              .ok { s with content := c', cursor := { row := start_row, col := start_col } }
        else
          match pyGet s.content start_row with
          | none => .err s "cut paste failed"
          | some start_line =>
            match pySet s.content start_row (pyTake start_line start_col) with
            | none => .err s "cut paste failed"
            | some c1 =>
              match pyGet c1 end_row with
              | none => .err { s with content := c1 } "cut paste failed"
              | some end_line =>
                let remaining := pyDrop end_line (end_col + 1)
                match pyGet c1 start_row with
                | none => .err { s with content := c1 } "cut paste failed"
                | some cur =>
                  match pySet c1 start_row (cur ++ remaining) with
                  | none => .err { s with content := c1 } "cut paste failed"
                  | some c2 =>
                    let c3 := pyDelSlice c2 (start_row + 1) (end_row + 1)
                    .ok { s with
                          content := c3,
                          cursor := { row := start_row, col := start_col } }
      match deleted with
      | .ok s' =>
        let s'' := { s' with clipboard := cut_text }
        match paste_content cut_text s'' with
        | .ok s3 => .ok s3
        | .crash s3 => .err s3 "cut paste failed"
        | .err s3 m => .err s3 m
      | r => r

/-- `do_paste` (`ve.py` 504-592). -/
def do_paste (args : List String) (s : EState) : Res :=
  if s.is_active = false then .err s "no open file"
  else if s.clipboard = [] then .err s "clipboard empty"
  else
    let s1 := if s.content = [] then
        { s with content := [[]], cursor := { row := 0, col := 0 } }
      else s
    match args with
    | [] => paste_content s1.clipboard s1
    | a0 :: rest =>
      if a0 = "range" ∧ 2 ≤ rest.length then paste_range rest s1
      else .err s1 "invalid paste command"

/-- `do_s` (`ve.py` 624-640); the write itself is external, the state is
unchanged either way (the saved text is `saveText`). -/
def do_s (s : EState) : Res :=
  if s.is_active = false then .err s "no open file"
  else if s.current_file = none then .err s "no file"
  else .ok s

/-- `do_q` (`ve.py` 642-651): deactivate, forget the file identity, keep
buffer, cursor and clipboard. -/
def do_q (s : EState) : Res :=
  if s.is_active = false then .err s "no open editor"
  else .ok { s with is_active := false, current_file := none }

/-- `do_qs` (`ve.py` 653-671), on the success path of the save. -/
def do_qs (s : EState) : Res :=
  if s.is_active then .ok { s with is_active := false, current_file := none }
  else .err s "no open editor"

/-! ### The command surface and reachability -/

/-- One editor command with its (already tokenised) arguments; `copen`
carries the text of the addressed file (`none` = the file does not exist). -/
inductive Cmd where
  | copen (fc : Option (List Char)) (fname : String)
  | move (args : List String)
  | line (arg : String)
  | brk
  | write (text : List Char)
  | space (arg : String)
  | del (args : List String)
  | copy (args : List String)
  | paste (args : List String)
  | save
  | quit
  | savequit

/-- Dispatch of one command (the `cmd.Cmd` loop body). -/
def step : Cmd → EState → Res
  | .copen fc f, s => do_open fc f s
  | .move a, s => do_move a s
  | .line a, s => do_line a s
  | .brk, s => do_break s
  | .write t, s => do_write t s
  | .space a, s => do_space a s
  | .del a, s => do_del a s
  | .copy a, s => do_copy a s
  | .paste a, s => do_paste a s
  | .save, s => do_s s
  | .quit, s => do_q s
  | .savequit, s => do_qs s

/-- States reachable from `initState` by any command sequence. -/
inductive Reachable : EState → Prop where
  | init : Reachable initState
  | step (c : Cmd) (s : EState) : Reachable s → Reachable ((step c s).state)

/-- The length of the cursor's line (`len(content[cursor.row])`), `-1` when
the cursor row is out of bounds. -/
def cursorLineLen (s : EState) : Int :=
  match pyGet s.content s.cursor.row with
  | some l => (l.length : Int)
  | none => -1

/-- The cursor/buffer well-formedness property claimed for active states:
at least one line, cursor row inside the buffer, cursor column inside its
line (column may equal the line length). -/
def WfState (s : EState) : Prop :=
  s.is_active = true →
    1 ≤ s.content.length ∧
    0 ≤ s.cursor.row ∧ s.cursor.row < (s.content.length : Int) ∧
    0 ≤ s.cursor.col ∧
    ∃ l, pyGet s.content s.cursor.row = some l ∧ s.cursor.col ≤ (l.length : Int)

/-- Does a `paste` argument list reach the cut-and-paste range branch? -/
def pasteRangeForm : List String → Bool
  | "range" :: _ :: _ :: _ => true
  | _ => false

/-- Does a `del` argument list reach the cross-line deletion path (two parsed
`"row,col"` pairs naming distinct rows, plus the extra token the source's
`len(args) == 3` test demands)? -/
def crossRowDel : List String → Bool
  | "range" :: a :: b :: _ :: _ =>
    a != "all" &&
      (match parsePair a, parsePair b with
       | some (r1, _), some (r2, _) => r1 != r2
       | _, _ => false)
  | _ => false

/-- Commands whose validation is strong enough to preserve `WfState`: everything
except `paste range ...`, cross-line `del range ...`, and `open` of an
existing empty file. -/
def SafeCmd : Cmd → Prop
  | .copen fc _ => fc ≠ some []
  | .del args => crossRowDel args = false
  | .paste args => pasteRangeForm args = false
  | _ => True

/-- States reachable from `initState` using safe commands only. -/
inductive ReachableSafe : EState → Prop where
  | init : ReachableSafe initState
  | step (c : Cmd) (s : EState) : ReachableSafe s → SafeCmd c → ReachableSafe ((step c s).state)

example :
    do_open (some []) "f" initState =
      .ok { is_active := true, current_file := some "f", content := [],
            cursor := { row := 0, col := 0 }, clipboard := [] } := by decide

example :
    do_write "hi".toList
        { is_active := true, current_file := some "f", content := [[]],
          cursor := { row := 0, col := 0 }, clipboard := [] } =
      .ok { is_active := true, current_file := some "f", content := ["hi".toList],
            cursor := { row := 0, col := 2 }, clipboard := [] } := by decide

example :
    do_paste []
        { is_active := true, current_file := some "f", content := ["ab".toList],
          cursor := { row := 0, col := 1 }, clipboard := "x\ny".toList } =
      .ok { is_active := true, current_file := some "f",
            content := ["ax".toList, "y".toList],
            cursor := { row := 1, col := 1 }, clipboard := "x\ny".toList } := by decide

example :
    do_del ["range", "2", "4"]
        { is_active := true, current_file := some "f", content := ["abcdef".toList],
          cursor := { row := 0, col := 0 }, clipboard := [] } =
      .ok { is_active := true, current_file := some "f", content := ["aef".toList],
            cursor := { row := 0, col := 1 }, clipboard := [] } := by decide

example :
    (do_move ["left", "x"]
        { is_active := true, current_file := some "f", content := [[]],
          cursor := { row := 0, col := 0 }, clipboard := [] }) =
      .crash { is_active := true, current_file := some "f", content := [[]],
               cursor := { row := 0, col := 0 }, clipboard := [] } := by decide

/-! ### Basic facts about the Python primitives -/

theorem pySliceIdx_of_nonneg (n : Nat) (i : Int) (h : 0 ≤ i) :
    pySliceIdx n i = min i.toNat n := by
  unfold pySliceIdx
  rw [if_neg (by omega)]

theorem pySliceIdx_natCast (n : Nat) (k : Nat) :
    pySliceIdx n (k : Int) = min k n := by
  rw [pySliceIdx_of_nonneg n _ (by omega)]
  simp

theorem pyTake_of_nonneg (l : List α) (b : Int) (h : 0 ≤ b) :
    pyTake l b = l.take b.toNat := by
  unfold pyTake
  rw [pySliceIdx_of_nonneg _ _ h]
  rcases le_total b.toNat l.length with h' | h'
  · rw [min_eq_left h']
  · rw [min_eq_right h', List.take_length, List.take_of_length_le h']

theorem pyDrop_of_nonneg (l : List α) (a : Int) (h : 0 ≤ a) :
    pyDrop l a = l.drop a.toNat := by
  unfold pyDrop
  rw [pySliceIdx_of_nonneg _ _ h]
  rcases le_total a.toNat l.length with h' | h'
  · rw [min_eq_left h']
  · rw [min_eq_right h', List.drop_length, List.drop_of_length_le h']

theorem getElem?_append_cons (A B : List α) (x : α) :
    (A ++ x :: B)[A.length]? = some x := by
  induction A with
  | nil => simp
  | cons a as ih => simpa using ih

theorem set_append_cons (A B : List α) (x y : α) :
    (A ++ x :: B).set A.length y = A ++ y :: B := by
  induction A with
  | nil => rfl
  | cons a as ih => simp [ih]

theorem eraseIdx_append_cons (A B : List α) (x : α) :
    (A ++ x :: B).eraseIdx A.length = A ++ B := by
  induction A with
  | nil => rfl
  | cons a as ih => simpa using ih

theorem take_append_cons (A B : List α) (x : α) :
    (A ++ x :: B).take (A.length + 1) = A ++ [x] := by
  induction A with
  | nil => rfl
  | cons a as ih => simpa using ih

theorem drop_append_cons (A B : List α) (x : α) :
    (A ++ x :: B).drop (A.length + 1) = B := by
  induction A with
  | nil => rfl
  | cons a as ih => simp [ih]

theorem pyGet_of_lt (l : List α) (i : Int) (h0 : 0 ≤ i) (h1 : i < (l.length : Int)) :
    pyGet l i = l[i.toNat]? := by
  simp only [pyGet]
  rw [if_neg (by omega : ¬ i < 0), if_pos ⟨h0, h1⟩]

theorem pyGet_append_cons (A B : List α) (x : α) :
    pyGet (A ++ x :: B) (A.length : Int) = some x := by
  rw [pyGet_of_lt _ _ (by omega)
    (by simp only [List.length_append, List.length_cons]; omega), Int.toNat_natCast]
  exact getElem?_append_cons A B x

theorem pySet_append_cons (A B : List α) (x y : α) :
    pySet (A ++ x :: B) (A.length : Int) y = some (A ++ y :: B) := by
  simp only [pySet]
  rw [if_neg (by omega : ¬ (A.length : Int) < 0)]
  rw [if_pos ⟨by omega, by simp only [List.length_append, List.length_cons]; omega⟩]
  rw [Int.toNat_natCast, set_append_cons]

theorem pyDelAt_append_cons (A B : List α) (x : α) :
    pyDelAt (A ++ x :: B) (A.length : Int) = some (A ++ B) := by
  simp only [pyDelAt]
  rw [if_neg (by omega : ¬ (A.length : Int) < 0)]
  rw [if_pos ⟨by omega, by simp only [List.length_append, List.length_cons]; omega⟩]
  rw [Int.toNat_natCast, eraseIdx_append_cons]

theorem pyInsert_append_cons (A B : List α) (x y : α) :
    pyInsert (A ++ x :: B) ((A.length : Int) + 1) y = A ++ x :: y :: B := by
  simp only [pyInsert]
  have hx : ((A.length : Int) + 1) = ((A.length + 1 : Nat) : Int) := by omega
  rw [hx, pySliceIdx_natCast]
  have hle : A.length + 1 ≤ (A ++ x :: B).length := by simp
  rw [min_eq_left hle, take_append_cons, drop_append_cons]
  simp

theorem pyDelSlice_mid (A C B : List α) (x : α) :
    pyDelSlice (A ++ x :: (C ++ B)) ((A.length : Int) + 1)
      ((A.length : Int) + 1 + (C.length : Int)) = A ++ x :: B := by
  simp only [pyDelSlice]
  have hx : ((A.length : Int) + 1) = ((A.length + 1 : Nat) : Int) := by omega
  have hy : ((A.length : Int) + 1 + (C.length : Int)) =
      ((A.length + 1 + C.length : Nat) : Int) := by omega
  rw [hy, hx, pySliceIdx_natCast, pySliceIdx_natCast]
  have hlen : (A ++ x :: (C ++ B)).length = A.length + 1 + C.length + B.length := by
    simp; omega
  rcases Nat.eq_zero_or_pos C.length with hC | hC
  · rw [if_neg (by omega)]
    have : C = [] := List.length_eq_zero.mp hC
    simp [this]
  · rw [if_pos (by rw [hlen]; omega)]
    rw [min_eq_left (by rw [hlen]; omega), min_eq_left (by rw [hlen]; omega)]
    rw [take_append_cons]
    have h3 : A ++ x :: (C ++ B) = ((A ++ [x]) ++ C) ++ B := by simp
    have h4 : A.length + 1 + C.length = ((A ++ [x]) ++ C).length := by simp; omega
    rw [h3, h4, List.drop_left]
    simp

theorem foldr_pyInsert (rem : List Line) (A B : List Line) (x : Line) :
    rem.foldr (fun l c => pyInsert c ((A.length : Int) + 1) l) (A ++ x :: B) =
      A ++ x :: (rem ++ B) := by
  induction rem with
  | nil => simp
  | cons r rs ih =>
    simp only [List.foldr_cons, ih, pyInsert_append_cons]
    rfl

theorem foldl_pyInsert (rem : List Line) (A B : List Line) (x : Line) :
    rem.reverse.foldl (fun c l => pyInsert c ((A.length : Int) + 1) l) (A ++ x :: B) =
      A ++ x :: (rem ++ B) := by
  rw [List.foldl_reverse]
  exact foldr_pyInsert rem A B x

theorem pySplitCh_cons (sep c : Char) (cs : List Char) :
    pySplitCh sep (c :: cs) =
      if c = sep then [] :: pySplitCh sep cs
      else
        match pySplitCh sep cs with
        | [] => [[c]]
        | l :: ls => (c :: l) :: ls := rfl

theorem pySplitCh_ne_nil (sep : Char) (t : List Char) : pySplitCh sep t ≠ [] := by
  induction t with
  | nil => simp [pySplitCh]
  | cons c cs ih =>
    rw [pySplitCh_cons]
    by_cases h : c = sep
    · simp [h]
    · rw [if_neg h]
      rcases hs : pySplitCh sep cs with _ | ⟨l, ls⟩
      · simp
      · simp

theorem pySplitCh_no_sep (sep : Char) (l : List Char) (h : sep ∉ l) :
    pySplitCh sep l = [l] := by
  induction l with
  | nil => rfl
  | cons c cs ih =>
    have hc : ¬ c = sep := fun hc => h (by simp [hc])
    rw [pySplitCh_cons, if_neg hc, ih (fun hm => h (List.mem_cons_of_mem c hm))]

theorem pySplitCh_append_sep (sep : Char) (l t : List Char) (h : sep ∉ l) :
    pySplitCh sep (l ++ sep :: t) = l :: pySplitCh sep t := by
  induction l with
  | nil =>
    rw [List.nil_append, pySplitCh_cons, if_pos rfl]
  | cons c cs ih =>
    have hc : ¬ c = sep := fun hc => h (by simp [hc])
    rw [List.cons_append, pySplitCh_cons, if_neg hc,
      ih (fun hm => h (List.mem_cons_of_mem c hm))]

theorem joinNl_cons_cons (x y : Line) (xs : List Line) :
    joinNl (x :: y :: xs) = x ++ '\n' :: joinNl (y :: xs) := rfl

theorem pySplitNl_joinNl (xs : List Line) (hne : xs ≠ [])
    (h : ∀ x ∈ xs, '\n' ∉ x) : pySplitNl (joinNl xs) = xs := by
  induction xs with
  | nil => exact absurd rfl hne
  | cons x rest ih =>
    cases rest with
    | nil =>
      show pySplitCh '\n' x = [x]
      exact pySplitCh_no_sep '\n' x (h x (List.mem_cons_self x []))
    | cons y ys =>
      rw [joinNl_cons_cons]
      show pySplitCh '\n' (x ++ '\n' :: joinNl (y :: ys)) = x :: y :: ys
      rw [pySplitCh_append_sep '\n' _ _ (h x (List.mem_cons_self x _))]
      have := ih (by simp) (fun z hz => h z (List.mem_cons_of_mem x hz))
      rw [show pySplitNl (joinNl (y :: ys)) = pySplitCh '\n' (joinNl (y :: ys)) from rfl] at this
      rw [this]

theorem readlines_cons (c : Char) (cs : List Char) :
    readlines (c :: cs) =
      if c = '\n' then ['\n'] :: readlines cs
      else
        match readlines cs with
        | [] => [[c]]
        | l :: ls => (c :: l) :: ls := rfl

theorem readlines_no_nl (l : List Char) (hne : l ≠ []) (h : '\n' ∉ l) :
    readlines l = [l] := by
  induction l with
  | nil => exact absurd rfl hne
  | cons c cs ih =>
    have hc : ¬ c = '\n' := fun hc => h (by simp [hc])
    rw [readlines_cons, if_neg hc]
    cases cs with
    | nil => rfl
    | cons d ds =>
      rw [ih (by simp) (fun hm => h (List.mem_cons_of_mem c hm))]

theorem readlines_append_nl (l t : List Char) (h : '\n' ∉ l) :
    readlines (l ++ '\n' :: t) = (l ++ ['\n']) :: readlines t := by
  induction l with
  | nil =>
    rw [List.nil_append, readlines_cons, if_pos rfl]
    rfl
  | cons c cs ih =>
    have hc : ¬ c = '\n' := fun hc => h (by simp [hc])
    rw [List.cons_append, readlines_cons, if_neg hc,
      ih (fun hm => h (List.mem_cons_of_mem c hm))]
    rfl

theorem dropWhileNl_no_nl (xs : List Char) (h : '\n' ∉ xs) :
    xs.dropWhile (fun c => c == '\n') = xs := by
  cases xs with
  | nil => rfl
  | cons c cs =>
    have hc : ¬ c = '\n' := fun hc => h (by simp [hc])
    rw [List.dropWhile_cons, if_neg (by simp [hc])]

theorem rstripNl_no_nl (l : List Char) (h : '\n' ∉ l) : rstripNl l = l := by
  unfold rstripNl
  rw [dropWhileNl_no_nl _ (by simp [h]), List.reverse_reverse]

theorem rstripNl_append_nl (l : List Char) (h : '\n' ∉ l) :
    rstripNl (l ++ ['\n']) = l := by
  unfold rstripNl
  rw [List.reverse_append]
  show (('\n' :: l.reverse).dropWhile fun c => c == '\n').reverse = l
  rw [List.dropWhile_cons, if_pos (by simp), dropWhileNl_no_nl _ (by simp [h]),
    List.reverse_reverse]

theorem loadLines_joinNl (ls : List Line) (h : ∀ l ∈ ls, '\n' ∉ l) :
    loadLines (joinNl ls) = if ls.getLast? = some [] then ls.dropLast else ls := by
  induction ls with
  | nil => rfl
  | cons x rest ih =>
    cases rest with
    | nil =>
      show loadLines x = _
      by_cases hx : x = []
      · subst hx
        rfl
      · unfold loadLines
        rw [readlines_no_nl x hx (h x (List.mem_cons_self x [])), if_neg (by simp [hx])]
        simp [rstripNl_no_nl x (h x (List.mem_cons_self x []))]
    | cons y ys =>
      rw [joinNl_cons_cons]
      unfold loadLines
      rw [readlines_append_nl _ _ (h x (List.mem_cons_self x _))]
      rw [List.map_cons, rstripNl_append_nl _ (h x (List.mem_cons_self x _))]
      have ihr := ih (fun z hz => h z (List.mem_cons_of_mem x hz))
      unfold loadLines at ihr
      rw [ihr]
      rw [List.getLast?_cons_cons]
      by_cases hlast : (y :: ys).getLast? = some []
      · rw [if_pos hlast, if_pos hlast]
        rfl
      · rw [if_neg hlast, if_neg hlast]

theorem exists_three_decomp (l : List α) (i : Nat) (h : i < l.length) :
    ∃ A x B, l = A ++ x :: B ∧ A.length = i := by
  refine ⟨l.take i, l.get ⟨i, h⟩, l.drop (i + 1), ?_, by simp [List.length_take]; omega⟩
  conv_lhs => rw [← List.take_append_drop i l]
  congr 1
  rw [← List.getElem_cons_drop l i h]
  rfl

theorem exists_five_decomp (l : List α) (i j : Nat) (hij : i < j) (hj : j < l.length) :
    ∃ A x M y B, l = A ++ x :: (M ++ y :: B) ∧ A.length = i ∧ i + 1 + M.length = j := by
  obtain ⟨A, x, B, hl, hA⟩ := exists_three_decomp l i (by omega)
  have hB : j - i - 1 < B.length := by
    have := congrArg List.length hl
    simp at this
    omega
  obtain ⟨M, y, B', hBeq, hM⟩ := exists_three_decomp B _ hB
  exact ⟨A, x, M, y, B', by rw [hl, hBeq], hA, by omega⟩

theorem length_pyTake_of_le (l : List α) (b : Int) (h0 : 0 ≤ b) (h1 : b ≤ (l.length : Int)) :
    ((pyTake l b).length : Int) = b := by
  rw [pyTake_of_nonneg _ _ h0]
  simp [List.length_take]
  omega

theorem length_pyDrop_of_le (l : List α) (a : Int) (h0 : 0 ≤ a) (h1 : a ≤ (l.length : Int)) :
    ((pyDrop l a).length : Int) = (l.length : Int) - a := by
  rw [pyDrop_of_nonneg _ _ h0]
  simp [List.length_drop]
  omega

theorem pyTake_append_pyDrop (l : List α) (c : Int) (h0 : 0 ≤ c) :
    pyTake l c ++ pyDrop l c = l := by
  rw [pyTake_of_nonneg _ _ h0, pyDrop_of_nonneg _ _ h0]
  exact List.take_append_drop c.toNat l

theorem pyTake_left_of_prefix (x y : List α) (c : Int) (hc : (x.length : Int) = c) :
    pyTake (x ++ y) c = x := by
  rw [pyTake_of_nonneg _ _ (by omega)]
  have : c.toNat = x.length := by omega
  rw [this, List.take_left]

theorem pyDrop_left_of_prefix (x y : List α) (c : Int) (hc : (x.length : Int) = c) :
    pyDrop (x ++ y) c = y := by
  rw [pyDrop_of_nonneg _ _ (by omega)]
  have : c.toNat = x.length := by omega
  rw [this, List.drop_left]

theorem not_mem_pyTake (l : List α) (b : Int) (a : α) (h : a ∉ l) : a ∉ pyTake l b := by
  intro hm
  unfold pyTake at hm
  exact h ((List.take_sublist _ _).mem hm)

theorem not_mem_pyDrop (l : List α) (b : Int) (a : α) (h : a ∉ l) : a ∉ pyDrop l b := by
  intro hm
  unfold pyDrop at hm
  exact h ((List.drop_sublist _ _).mem hm)

theorem not_mem_pySlice (l : List α) (b c : Int) (a : α) (h : a ∉ l) : a ∉ pySlice l b c := by
  intro hm
  unfold pySlice at hm
  exact h ((List.take_sublist _ _).mem ((List.drop_sublist _ _).mem hm))

/-- Splicing a slice back between the matching take and drop restores the list. -/
theorem pyTake_append_pySlice_append_pyDrop (l : List α) (a b : Int)
    (h0 : 0 ≤ a) (h1 : a ≤ b) (h2 : b ≤ (l.length : Int)) :
    pyTake l a ++ pySlice l a b ++ pyDrop l b = l := by
  rw [pyTake_of_nonneg _ _ h0, pyDrop_of_nonneg _ _ (by omega)]
  unfold pySlice
  rw [pySliceIdx_of_nonneg _ _ h0, pySliceIdx_of_nonneg _ _ (by omega)]
  rw [min_eq_left (by omega), min_eq_left (by omega)]
  have e1 : l.take a.toNat = (l.take b.toNat).take a.toNat := by
    rw [List.take_take, min_eq_left (by omega)]
  rw [e1, List.take_append_drop, List.take_append_drop]

theorem length_pySlice_of_le (l : List α) (a b : Int)
    (h0 : 0 ≤ a) (h1 : a ≤ b) (h2 : b ≤ (l.length : Int)) :
    ((pySlice l a b).length : Int) = b - a := by
  unfold pySlice
  rw [pySliceIdx_of_nonneg _ _ h0, pySliceIdx_of_nonneg _ _ (by omega)]
  rw [min_eq_left (by omega), min_eq_left (by omega)]
  simp [List.length_drop, List.length_take]
  omega

theorem pyGet_zero_cons (x : α) (B : List α) : pyGet (x :: B) 0 = some x := by
  have h := pyGet_append_cons ([] : List α) B x
  simpa using h

theorem midLinesAux_append (M P Q : List Line) :
    midLinesAux (P ++ (M ++ Q)) (P.length : Int) M.length = some M := by
  induction M generalizing P with
  | nil => rfl
  | cons m ms ih =>
    show (match pyGet (P ++ (m :: ms ++ Q)) (P.length : Int) with
      | none => none
      | some l => (midLinesAux (P ++ (m :: ms ++ Q)) ((P.length : Int) + 1) ms.length).map
          (fun t => l :: t)) = some (m :: ms)
    have e0 : P ++ (m :: ms ++ Q) = P ++ m :: (ms ++ Q) := by simp
    rw [e0, pyGet_append_cons]
    have e1 : P ++ m :: (ms ++ Q) = (P ++ [m]) ++ (ms ++ Q) := by simp
    have e2 : ((P.length : Int) + 1) = (((P ++ [m]).length : Nat) : Int) := by simp
    rw [e1, e2, ih (P ++ [m])]
    rfl

theorem midLines_mid (A : List Line) (x : Line) (M Q : List Line) :
    midLines (A ++ x :: (M ++ Q)) ((A.length : Int) + 1)
      ((A.length : Int) + 1 + (M.length : Int)) = some M := by
  unfold midLines
  have h1 : (((A.length : Int) + 1 + (M.length : Int)) - ((A.length : Int) + 1)).toNat
      = M.length := by omega
  rw [h1]
  have h2 : A ++ x :: (M ++ Q) = (A ++ [x]) ++ (M ++ Q) := by simp
  have h3 : ((A.length : Int) + 1) = (((A ++ [x]).length : Nat) : Int) := by simp
  rw [h2, h3]
  exact midLinesAux_append M (A ++ [x]) Q

theorem midLinesAux_isSome (content : List Line) (fuel : Nat) (a : Int)
    (h0 : 0 ≤ a) (h1 : a + fuel ≤ (content.length : Int)) :
    ∃ M, midLinesAux content a fuel = some M := by
  induction fuel generalizing a with
  | zero => exact ⟨[], rfl⟩
  | succ k ih =>
    have hlt : a.toNat < content.length := by omega
    have hget : pyGet content a = some content[a.toNat] := by
      rw [pyGet_of_lt _ _ h0 (by omega), List.getElem?_eq_getElem hlt]
    obtain ⟨M, hM⟩ := ih (a + 1) (by omega) (by omega)
    refine ⟨content[a.toNat] :: M, ?_⟩
    show (match pyGet content a with
      | none => none
      | some l => (midLinesAux content (a + 1) k).map (fun t => l :: t)) = _
    rw [hget, hM]
    rfl

theorem readlines_ne_nil (t : List Char) (h : t ≠ []) : readlines t ≠ [] := by
  cases t with
  | nil => exact absurd rfl h
  | cons c cs =>
    rw [readlines_cons]
    by_cases hc : c = '\n'
    · simp [hc]
    · rw [if_neg hc]
      rcases hr : readlines cs with _ | ⟨l, ls⟩
      · simp
      · simp

/-! ### Behaviour of `paste_content` on well-formed states -/

theorem paste_content_single (act : Bool) (cf : Option String) (clip : Line)
    (A B : List Line) (cur l0 : Line) (col : Int) (hnl : '\n' ∉ l0) :
    paste_content l0 ⟨act, cf, A ++ cur :: B, ⟨(A.length : Int), col⟩, clip⟩ =
      .ok ⟨act, cf, A ++ (pyTake cur col ++ l0 ++ pyDrop cur col) :: B,
           ⟨(A.length : Int), col + (l0.length : Int)⟩, clip⟩ := by
  simp only [paste_content, show pySplitNl l0 = [l0] from pySplitCh_no_sep '\n' l0 hnl,
    pyGet_append_cons, pySet_append_cons]

theorem paste_content_multi (act : Bool) (cf : Option String) (clip : Line)
    (A B : List Line) (cur l0 lastl : Line) (rem : List Line) (cs : Line) (col : Int)
    (hsplit : pySplitNl cs = l0 :: rem)
    (hlast : rem.getLast? = some lastl) :
    paste_content cs ⟨act, cf, A ++ cur :: B, ⟨(A.length : Int), col⟩, clip⟩ =
      .ok ⟨act, cf, A ++ (pyTake cur col ++ l0) :: (rem ++ B),
           ⟨(A.length : Int) + (rem.length : Int), (lastl.length : Int)⟩, clip⟩ := by
  cases rem with
  | nil => exact absurd hlast (by simp)
  | cons r rs =>
    simp only [paste_content, hsplit, pyGet_append_cons, pySet_append_cons, hlast]
    rw [foldl_pyInsert (r :: rs) A B (pyTake cur col ++ l0)]

/-! ### Guard elimination for commands on states satisfying the guards -/

theorem do_paste_nil (s : EState) (hact : s.is_active = true) (hclip : s.clipboard ≠ [])
    (hcontent : s.content ≠ []) : do_paste [] s = paste_content s.clipboard s := by
  simp [do_paste, hact, hclip, hcontent]

theorem do_paste_range_eq (s : EState) (hact : s.is_active = true) (hclip : s.clipboard ≠ [])
    (hcontent : s.content ≠ []) (a b : String) (rest : List String) :
    do_paste ("range" :: a :: b :: rest) s = paste_range (a :: b :: rest) s := by
  simp [do_paste, hact, hclip, hcontent]

theorem do_del_range_eq (s : EState) (hact : s.is_active = true) (hcontent : s.content ≠ [])
    (a : String) (rest : List String) (ha : a ≠ "all") :
    do_del ("range" :: a :: rest) s = del_range (a :: rest) s := by
  simp [do_del, hact, hcontent, ha]

theorem do_copy_range_eq (s : EState) (hact : s.is_active = true) (hcontent : s.content ≠ [])
    (a b : String) (rest : List String) :
    do_copy ("range" :: a :: b :: rest) s = copy_range (a :: b :: rest) s := by
  simp [do_copy, hact, hcontent]

/-! ### Claim C4 -/

/-- Claim C4, counterexample: with clipboard `"x\ny"`, buffer `["ab"]` and
cursor `(0,1)`, `paste` yields `["ax","y"]` — the `"b"` after the cursor is
discarded — not the claimed `["ax","yb"]`. -/
theorem C4_counterexample :
    do_paste [] ⟨true, some "f", ["ab".toList], ⟨0, 1⟩, "x\ny".toList⟩ =
      .ok ⟨true, some "f", ["ax".toList, "y".toList], ⟨1, 1⟩, "x\ny".toList⟩ ∧
    (["ax".toList, "y".toList] : List Line) ≠ ["ax".toList, "yb".toList] := by
  constructor
  · decide
  · decide

/-- Claim C4 (amended): a multi-segment paste truncates the current line at
the cursor column — discarding the text after the cursor rather than
reattaching it — appends the first segment, inserts the remaining segments
as new lines after it in clipboard order, and leaves the cursor at
`(originalRow + segmentCount - 1, length of the last inserted segment)`;
in the scenario the result is `["ax","y"]` with cursor `(1,1)`. -/
theorem C4_amended_paste_multi (cf : Option String) (A B : List Line)
    (cur l0 lastl : Line) (rem : List Line) (clip : Line) (col : Int)
    (hne : clip ≠ [])
    (hsplit : pySplitNl clip = l0 :: rem)
    (hlast : rem.getLast? = some lastl) :
    do_paste [] ⟨true, cf, A ++ cur :: B, ⟨(A.length : Int), col⟩, clip⟩ =
      .ok ⟨true, cf, A ++ (pyTake cur col ++ l0) :: (rem ++ B),
           ⟨(A.length : Int) + (rem.length : Int), (lastl.length : Int)⟩, clip⟩ := by
  rw [do_paste_nil _ rfl hne (by simp)]
  exact paste_content_multi true cf clip A B cur l0 lastl rem clip col hsplit hlast

/-- Witness for C4 at the spec's own scenario. -/
theorem C4_witness :
    do_paste [] ⟨true, some "f", [] ++ "ab".toList :: [], ⟨(([] : List Line).length : Int), 1⟩,
        "x\ny".toList⟩ =
      .ok ⟨true, some "f",
           [] ++ (pyTake "ab".toList 1 ++ "x".toList) :: (["y".toList] ++ []),
           ⟨(([] : List Line).length : Int) + (["y".toList].length : Int),
            (("y".toList).length : Int)⟩, "x\ny".toList⟩ :=
  C4_amended_paste_multi (some "f") [] [] "ab".toList "x".toList "y".toList
    ["y".toList] "x\ny".toList 1 (by decide) (by decide) (by decide)

/-! ### Claim C5 -/

/-- Claim C5: refuted by the code — `move left x` parses its count with a
bare `int()` outside any `try` (`ve.py` 97), so the session dies with an
uncaught `ValueError` instead of recovering; every sibling command wraps the
parse, so the claim (and spec §7) describes the evident intent. -/
theorem C5_move_crash :
    do_move ["left", "x"] ⟨true, some "f", ["ab".toList], ⟨0, 0⟩, []⟩ =
      .crash ⟨true, some "f", ["ab".toList], ⟨0, 0⟩, []⟩ := by decide

/-! ### Claim C6 -/

/-- Claim C6, counterexample: the buffer `[""]` — the state every new file
starts in — saves as the empty text, which loads back as zero lines, not as
`[""]`. -/
theorem C6_counterexample :
    saveText ⟨true, some "f", [[]], ⟨0, 0⟩, []⟩ = [] ∧
    loadLines (saveText ⟨true, some "f", [[]], ⟨0, 0⟩, []⟩) = [] ∧
    (⟨true, some "f", [[]], ⟨0, 0⟩, []⟩ : EState).content ≠ [] := by
  exact ⟨rfl, rfl, by decide⟩

/-- Claim C6 (amended): `save` followed by `load` reproduces the buffer
exactly when the buffer is empty or its last line is nonempty; when the last
line is empty, the load returns the buffer with that one trailing empty line
dropped (since `save` appends no trailing terminator). -/
theorem C6_amended_roundtrip (s : EState) (h : ∀ l ∈ s.content, '\n' ∉ l) :
    loadLines (saveText s) =
      if s.content.getLast? = some [] then s.content.dropLast else s.content :=
  loadLines_joinNl s.content h

/-- Witness for C6 on the buffer `["ab","c"]` (round-trips exactly). -/
theorem C6_witness :
    loadLines (saveText ⟨true, some "f", ["ab".toList, "c".toList], ⟨0, 0⟩, []⟩) =
      if (⟨true, some "f", ["ab".toList, "c".toList], ⟨0, 0⟩, []⟩ : EState).content.getLast?
          = some [] then
        (⟨true, some "f", ["ab".toList, "c".toList], ⟨0, 0⟩, []⟩ : EState).content.dropLast
      else (⟨true, some "f", ["ab".toList, "c".toList], ⟨0, 0⟩, []⟩ : EState).content :=
  C6_amended_roundtrip ⟨true, some "f", ["ab".toList, "c".toList], ⟨0, 0⟩, []⟩ (by decide)

/-! ### Claim C10 -/

/-- Claim C10, counterexample: the clipboard does survive `q` itself, but it
is not "still present when the next document is addressed": `open` clears it
(`ve.py` 61). -/
theorem C10_counterexample :
    ((do_q ⟨true, some "f", ["a".toList], ⟨0, 0⟩, "x".toList⟩).state).clipboard = "x".toList ∧
    ((do_open none "g"
        ((do_q ⟨true, some "f", ["a".toList], ⟨0, 0⟩, "x".toList⟩).state)).state).clipboard
      = [] ∧
    "x".toList ≠ ([] : List Char) := by
  exact ⟨by decide, by decide, by decide⟩

/-- Claim C10 (amended): `q` in an active session resets only the active
flag and the file identity — buffer, cursor and clipboard keep their values
while the session is inactive — but the next `open` resets the cursor to
`(0,0)` and clears the clipboard, so a populated clipboard does not survive
into the next document. -/
theorem C10_amended_quit_frame :
    (∀ s : EState, s.is_active = true →
       do_q s = .ok { s with is_active := false, current_file := none }) ∧
    (∀ (fc : Option (List Char)) (name : String) (s : EState), name ≠ "" →
       ((do_open fc name s).state).clipboard = [] ∧
       ((do_open fc name s).state).cursor = ⟨0, 0⟩ ∧
       ((do_open fc name s).state).is_active = true) := by
  constructor
  · intro s hact
    simp [do_q, hact]
  · intro fc name s hname
    cases fc <;> simp [do_open, hname, Res.state]

/-- Witness for C10: `q` from a concrete active state, then `open` of a new
file clearing the clipboard. -/
theorem C10_witness :
    do_q ⟨true, some "f", ["a".toList], ⟨0, 1⟩, "x".toList⟩ =
      .ok { (⟨true, some "f", ["a".toList], ⟨0, 1⟩, "x".toList⟩ : EState) with
            is_active := false, current_file := none } ∧
    ((do_open none "g" ⟨false, none, ["a".toList], ⟨0, 1⟩, "x".toList⟩).state).clipboard = [] :=
  ⟨C10_amended_quit_frame.1 _ rfl,
   (C10_amended_quit_frame.2 none "g" ⟨false, none, ["a".toList], ⟨0, 1⟩, "x".toList⟩
     (by decide)).1⟩

/-! ### Claim C9 -/

/-- Claim C9, counterexample: from the reachable zero-line state (open of an
existing empty file), a successful `write` changes the line count from 0 to
1, so "the line count ... unchanged" fails there. -/
theorem C9_counterexample :
    Reachable ((step (Cmd.copen (some []) "f") initState).state) ∧
    ((step (Cmd.copen (some []) "f") initState).state).content.length = 0 ∧
    (do_write "hi".toList ((step (Cmd.copen (some []) "f") initState).state)).isOk = true ∧
    ((do_write "hi".toList
        ((step (Cmd.copen (some []) "f") initState).state)).state).content.length = 1 := by
  refine ⟨Reachable.step _ _ Reachable.init, by decide, by decide, by decide⟩

/-- Claim C9 (amended): on a buffer with at least one line, every successful
`write <text>` or `space [count]` rewrites only the cursor's line (splicing
at the cursor column), leaves the line count, all other lines and the cursor
row unchanged, and advances the cursor column by the inserted length; from
the zero-line state these commands first materialise one empty line,
changing the line count from 0 to 1. -/
theorem C9_amended_frame :
    (∀ (cf : Option String) (clip : Line) (A B : List Line) (cur : Line) (col : Int)
        (text : List Char), text ≠ [] →
        do_write text ⟨true, cf, A ++ cur :: B, ⟨(A.length : Int), col⟩, clip⟩ =
          .ok ⟨true, cf, A ++ (pyTake cur col ++ text ++ pyDrop cur col) :: B,
               ⟨(A.length : Int), col + (text.length : Int)⟩, clip⟩) ∧
    (∀ (cf : Option String) (clip : Line) (A B : List Line) (cur : Line) (col n : Int)
        (t : String), pyInt t = some n → 0 < n →
        do_space t ⟨true, cf, A ++ cur :: B, ⟨(A.length : Int), col⟩, clip⟩ =
          .ok ⟨true, cf,
               A ++ (pyTake cur col ++ List.replicate n.toNat ' ' ++ pyDrop cur col) :: B,
               ⟨(A.length : Int), col + n⟩, clip⟩) := by
  constructor
  · intro cf clip A B cur col text htext
    simp only [do_write]
    rw [if_neg (by simp), if_neg htext, if_neg (by simp)]
    simp only [pyGet_append_cons, pySet_append_cons]
  · intro cf clip A B cur col n t hparse hn
    have hne : pyInt "" = none := by decide
    have ht : t ≠ "" := by
      intro h
      rw [h, hne] at hparse
      exact Option.noConfusion hparse
    have hle : (n ≤ 0) = False := by
      simp only [eq_iff_iff, iff_false]
      omega
    simp [do_space, ht, hparse, hle, pyGet_append_cons, pySet_append_cons]

/-- Witness for C9: `write "hi"` into `["ab"]` at `(0,1)` and `space 2`
into `["ab"]` at `(0,1)`. -/
theorem C9_witness :
    do_write "hi".toList ⟨true, some "f", [] ++ "ab".toList :: [],
        ⟨(([] : List Line).length : Int), 1⟩, []⟩ =
      .ok ⟨true, some "f",
           [] ++ (pyTake "ab".toList 1 ++ "hi".toList ++ pyDrop "ab".toList 1) :: [],
           ⟨(([] : List Line).length : Int), 1 + (("hi".toList).length : Int)⟩, []⟩ ∧
    do_space "2" ⟨true, some "f", [] ++ "ab".toList :: [],
        ⟨(([] : List Line).length : Int), 1⟩, []⟩ =
      .ok ⟨true, some "f",
           [] ++ (pyTake "ab".toList 1 ++ List.replicate (2 : Int).toNat ' '
             ++ pyDrop "ab".toList 1) :: [],
           ⟨(([] : List Line).length : Int), 1 + 2⟩, []⟩ :=
  ⟨C9_amended_frame.1 (some "f") [] [] [] "ab".toList 1 "hi".toList (by decide),
   C9_amended_frame.2 (some "f") [] [] [] "ab".toList 1 2 "2" (by decide) (by decide)⟩

/-! ### Claim C7 -/

/-- Claim C7: `deleteBackward` with the cursor at `col > 0` removes exactly
`min(count, col)` characters before the cursor from the current line only
(all other lines unchanged, row unchanged); at `col = 0, row > 0` it merges
the current line onto the end of the previous line regardless of `count`,
moving the cursor to the former end of the previous line; at `(0,0)` it is a
reported no-op, idempotent across repeated invocations. -/
theorem C7_delete_backward :
    (∀ (act : Bool) (cf : Option String) (clip : Line) (A B : List Line) (cur : Line)
        (col count : Int), 0 < col → 0 < count →
        delete_chars count ⟨act, cf, A ++ cur :: B, ⟨(A.length : Int), col⟩, clip⟩ =
          .ok ⟨act, cf,
               A ++ (pyTake cur (col - min count col) ++ pyDrop cur col) :: B,
               ⟨(A.length : Int), col - min count col⟩, clip⟩) ∧
    (∀ (act : Bool) (cf : Option String) (clip : Line) (A B : List Line)
        (prev cur : Line) (count : Int),
        delete_chars count
            ⟨act, cf, A ++ prev :: cur :: B, ⟨(A.length : Int) + 1, 0⟩, clip⟩ =
          .ok ⟨act, cf, A ++ (prev ++ cur) :: B,
               ⟨(A.length : Int), (prev.length : Int)⟩, clip⟩) ∧
    (∀ (s : EState) (count : Int), s.cursor.row = 0 → s.cursor.col = 0 →
        delete_chars count s = .err s "at start of file" ∧
        delete_chars count ((delete_chars count s).state) = .err s "at start of file") := by
  refine ⟨?_, ?_, ?_⟩
  · intro act cf clip A B cur col count hcol hcount
    simp only [delete_chars]
    rw [if_neg (by omega : ¬ col = 0)]
    simp only [pyGet_append_cons, pySet_append_cons]
  · intro act cf clip A B prev cur count
    have e : ((A.length : Int) + 1) - 1 = (A.length : Int) := by omega
    have g1 : pyGet (A ++ prev :: cur :: B) ((A.length : Int) + 1 - 1) = some prev := by
      rw [e]
      exact pyGet_append_cons A (cur :: B) prev
    have hx : A ++ prev :: cur :: B = (A ++ [prev]) ++ cur :: B := by simp
    have hl : ((A.length : Int) + 1) = (((A ++ [prev]).length : Nat) : Int) := by simp
    have g2 : pyGet (A ++ prev :: cur :: B) ((A.length : Int) + 1) = some cur := by
      rw [hx, hl]
      exact pyGet_append_cons (A ++ [prev]) B cur
    have g3 : pySet (A ++ prev :: cur :: B) ((A.length : Int) + 1 - 1) (prev ++ cur) =
        some (A ++ (prev ++ cur) :: cur :: B) := by
      rw [e]
      exact pySet_append_cons A (cur :: B) prev (prev ++ cur)
    have hx2 : A ++ (prev ++ cur) :: cur :: B = (A ++ [prev ++ cur]) ++ cur :: B := by simp
    have hl2 : ((A.length : Int) + 1) = (((A ++ [prev ++ cur]).length : Nat) : Int) := by simp
    have g4 : pyDelAt (A ++ (prev ++ cur) :: cur :: B) ((A.length : Int) + 1) =
        some (A ++ (prev ++ cur) :: B) := by
      rw [hx2, hl2]
      have h := pyDelAt_append_cons (A ++ [prev ++ cur]) B cur
      rw [h]
      simp
    simp only [delete_chars]
    rw [if_pos trivial, if_neg (by omega : ¬ (A.length : Int) + 1 = 0)]
    simp only [g1, g2, g3, g4]
    rw [e]
  · intro s count hrow hcol
    have h1 : delete_chars count s = .err s "at start of file" := by
      simp only [delete_chars, hrow, hcol]
      rw [if_pos trivial, if_pos trivial]
    exact ⟨h1, by rw [h1]; exact h1⟩

/-- Witness for C7: a clamped in-line deletion, a line merge, and the
`(0,0)` no-op, each at concrete inputs. -/
theorem C7_witness :
    delete_chars 5 ⟨true, some "f", [] ++ "abc".toList :: [], ⟨(([] : List Line).length : Int), 2⟩, []⟩ =
      .ok ⟨true, some "f",
           [] ++ (pyTake "abc".toList (2 - min 5 2) ++ pyDrop "abc".toList 2) :: [],
           ⟨(([] : List Line).length : Int), 2 - min 5 2⟩, []⟩ ∧
    delete_chars 3 ⟨true, some "f", [] ++ "ab".toList :: "cd".toList :: [],
        ⟨(([] : List Line).length : Int) + 1, 0⟩, []⟩ =
      .ok ⟨true, some "f", [] ++ ("ab".toList ++ "cd".toList) :: [],
           ⟨(([] : List Line).length : Int), (("ab".toList).length : Int)⟩, []⟩ ∧
    delete_chars 1 ⟨true, some "f", ["ab".toList], ⟨0, 0⟩, []⟩ =
      .err ⟨true, some "f", ["ab".toList], ⟨0, 0⟩, []⟩ "at start of file" :=
  ⟨C7_delete_backward.1 true (some "f") [] [] [] "abc".toList 2 5 (by decide) (by decide),
   C7_delete_backward.2.1 true (some "f") [] [] [] "ab".toList "cd".toList 3,
   (C7_delete_backward.2.2 ⟨true, some "f", ["ab".toList], ⟨0, 0⟩, []⟩ 1 rfl rfl).1⟩


/-! ### Claim C8 -/

theorem toLower_fix_of_le (c : Char) (h : c.toNat ≤ 64) : Char.toLower c = c := by
  unfold Char.toLower
  rw [if_neg (by omega)]

theorem first_char_not_letter (c : Char) (h : c = '-' ∨ c = '+' ∨ c.isDigit = true) :
    Char.toLower c ≠ 's' ∧ Char.toLower c ≠ 'e' := by
  rcases h with h | h | h
  · subst h
    exact ⟨by decide, by decide⟩
  · subst h
    exact ⟨by decide, by decide⟩
  · simp only [Char.isDigit, Bool.and_eq_true, decide_eq_true_eq, ge_iff_le] at h
    obtain ⟨h1, h2⟩ := h
    have hb : c.toNat ≤ 57 := h2
    rw [toLower_fix_of_le c (by omega)]
    constructor
    · intro he
      have := congrArg Char.toNat he
      rw [show Char.toNat 's' = 115 from rfl] at this
      omega
    · intro he
      have := congrArg Char.toNat he
      rw [show Char.toNat 'e' = 101 from rfl] at this
      omega

theorem pyInt_first (t : String) (n : Int) (h : pyInt t = some n) :
    ∃ c cs, t.toList = c :: cs ∧ (c = '-' ∨ c = '+' ∨ c.isDigit = true) := by
  unfold pyInt at h
  cases ht : t.toList with
  | nil => rw [ht] at h; exact Option.noConfusion h
  | cons c cs =>
    rw [ht] at h
    refine ⟨c, cs, rfl, ?_⟩
    by_cases h1 : c = '-'
    · exact Or.inl h1
    by_cases h2 : c = '+'
    · exact Or.inr (Or.inl h2)
    simp only [if_neg h1, if_neg h2] at h
    refine Or.inr (Or.inr ?_)
    by_contra hd
    have hz : digitsValAux 0 (c :: cs) = none := by
      simp only [digitsValAux]
      rw [if_neg hd]
    rw [hz] at h
    simp at h

theorem pyLower_of_pyInt (t : String) (n : Int) (h : pyInt t = some n) :
    pyLower t ≠ "start" ∧ pyLower t ≠ "end" := by
  obtain ⟨c, cs, ht, hc⟩ := pyInt_first t n h
  have hfix := first_char_not_letter c hc
  constructor
  · intro heq
    have hdata : t.toList.map Char.toLower = "start".toList := congrArg String.toList heq
    rw [ht, List.map_cons, show "start".toList = 's' :: "tart".toList from rfl] at hdata
    exact hfix.1 (List.cons.inj hdata).1
  · intro heq
    have hdata : t.toList.map Char.toLower = "end".toList := congrArg String.toList heq
    rw [ht, List.map_cons, show "end".toList = 'e' :: "nd".toList from rfl] at hdata
    exact hfix.2 (List.cons.inj hdata).1

/-- Claim C8: `line <n>` on a nonempty buffer rejects any `n` outside
`[1, lineCount]` with a line-number-out-of-range report and no state change,
and for `n` in range sets the cursor row to `n - 1` and the column to
`min(previous column, target line length)`, preserving the previous column
whenever it still fits (sticky column). -/
theorem C8_jump_line (s : EState) (t : String) (n : Int)
    (hact : s.is_active = true) (hcontent : s.content ≠ [])
    (hparse : pyInt t = some n) :
    ((n < 1 ∨ (s.content.length : Int) < n) →
      do_line t s = .err s "line number out of range") ∧
    (1 ≤ n → n ≤ (s.content.length : Int) →
      ∃ l, pyGet s.content (n - 1) = some l ∧
        do_line t s =
          .ok { s with cursor := { row := n - 1, col := min s.cursor.col (l.length : Int) } }) := by
  have hne : pyInt "" = none := by decide
  have ht : t ≠ "" := by
    intro h
    rw [h, hne] at hparse
    exact Option.noConfusion hparse
  obtain ⟨hstart, hend⟩ := pyLower_of_pyInt t n hparse
  constructor
  · intro hrange
    simp [do_line, hact, hcontent, ht, hstart, hend, hparse, hrange]
  · intro h1 h2
    have hlt : (n - 1).toNat < s.content.length := by omega
    refine ⟨s.content[(n - 1).toNat], ?_, ?_⟩
    · rw [pyGet_of_lt _ _ (by omega) (by omega), List.getElem?_eq_getElem hlt]
    · have hg : pyGet s.content (n - 1) = some s.content[(n - 1).toNat] := by
        rw [pyGet_of_lt _ _ (by omega) (by omega), List.getElem?_eq_getElem hlt]
      have hnr : ¬ (n < 1 ∨ (s.content.length : Int) < n) := by omega
      simp [do_line, hact, hcontent, ht, hstart, hend, hparse, hnr, hg]

/-- Witness for C8: on the buffer `["ab","c"]` with previous column 2,
`line 4` is rejected and `line 2` clamps the column to 1. -/
theorem C8_witness :
    (do_line "4" ⟨true, some "f", ["ab".toList, "c".toList], ⟨0, 2⟩, []⟩ =
      .err ⟨true, some "f", ["ab".toList, "c".toList], ⟨0, 2⟩, []⟩
        "line number out of range") ∧
    (∃ l, pyGet (["ab".toList, "c".toList] : List Line) (2 - 1) = some l ∧
      do_line "2" ⟨true, some "f", ["ab".toList, "c".toList], ⟨0, 2⟩, []⟩ =
        .ok { (⟨true, some "f", ["ab".toList, "c".toList], ⟨0, 2⟩, []⟩ : EState) with
              cursor := { row := 2 - 1, col := min 2 (l.length : Int) } }) :=
  ⟨(C8_jump_line ⟨true, some "f", ["ab".toList, "c".toList], ⟨0, 2⟩, []⟩ "4" 4 rfl
      (by decide) (by decide)).1 (by decide),
   (C8_jump_line ⟨true, some "f", ["ab".toList, "c".toList], ⟨0, 2⟩, []⟩ "2" 2 rfl
      (by decide) (by decide)).2 (by decide) (by decide)⟩

/-! ### Claim C3 -/

theorem cut_paste_same_row (cf : Option String) (clip : Line) (A B : List Line)
    (cur : Line) (x y : String) (sc ec r0c : Int)
    (hclip : clip ≠ [])
    (hx : pyInt x = some (sc + 1)) (hy : pyInt y = some (ec + 1))
    (h0 : 0 ≤ sc) (h1 : sc ≤ ec) (h2 : ec < (cur.length : Int))
    (hnl : '\n' ∉ cur) :
    do_paste ["range", x, y] ⟨true, cf, A ++ cur :: B, ⟨(A.length : Int), r0c⟩, clip⟩ =
      .ok ⟨true, cf, A ++ cur :: B, ⟨(A.length : Int), ec + 1⟩, pySlice cur sc (ec + 1)⟩ := by
  rw [show (["range", x, y] : List String) = "range" :: x :: y :: [] from rfl]
  rw [do_paste_range_eq _ rfl hclip (by simp) x y []]
  have hget : pyGet (A ++ cur :: B) ((A.length : Int)) = some cur := pyGet_append_cons A B cur
  have e1 : (sc + 1 - 1 : Int) = sc := by omega
  have e2 : (ec + 1 - 1 : Int) = ec := by omega
  have hset : pySet (A ++ cur :: B) ((A.length : Int))
      (pyTake cur sc ++ pyDrop cur (ec + 1)) =
      some (A ++ (pyTake cur sc ++ pyDrop cur (ec + 1)) :: B) :=
    pySet_append_cons A B cur _
  have hsl : '\n' ∉ pySlice cur sc (ec + 1) := not_mem_pySlice cur sc (ec + 1) '\n' hnl
  have hpc := paste_content_single true cf (pySlice cur sc (ec + 1)) A B
    (pyTake cur sc ++ pyDrop cur (ec + 1)) (pySlice cur sc (ec + 1)) sc hsl
  have hlen_take : ((pyTake cur sc).length : Int) = sc :=
    length_pyTake_of_le cur sc h0 (by omega)
  have htk : pyTake (pyTake cur sc ++ pyDrop cur (ec + 1)) sc = pyTake cur sc :=
    pyTake_left_of_prefix _ _ sc hlen_take
  have hdr : pyDrop (pyTake cur sc ++ pyDrop cur (ec + 1)) sc = pyDrop cur (ec + 1) :=
    pyDrop_left_of_prefix _ _ sc hlen_take
  have hglue : pyTake cur sc ++ pySlice cur sc (ec + 1) ++ pyDrop cur (ec + 1) = cur :=
    pyTake_append_pySlice_append_pyDrop cur sc (ec + 1) h0 (by omega) (by omega)
  have hslen : ((pySlice cur sc (ec + 1)).length : Int) = ec + 1 - sc :=
    length_pySlice_of_le cur sc (ec + 1) h0 (by omega) (by omega)
  simp only [paste_range, hx, hy, e1, e2, hget, hset, if_true, joinNl]
  rw [hpc]
  simp only [htk, hdr, hglue, hslen, Res.ok.injEq, EState.mk.injEq, Cursor.mk.injEq,
    and_true, true_and]
  omega

theorem cut_paste_cross (cf : Option String) (clip : Line) (A M B : List Line)
    (sl el : Line) (a b c : String) (rest : List String) (sc ec r0 c0 : Int)
    (hclip : clip ≠ [])
    (hpa : parsePair a = some ((A.length : Int), sc))
    (hpb : parsePair b = some ((A.length : Int) + 1 + (M.length : Int), ec))
    (h0 : 0 ≤ sc) (h1 : sc ≤ (sl.length : Int))
    (h2 : 0 ≤ ec) (h3 : ec < (el.length : Int))
    (hsl : '\n' ∉ sl) (hM : ∀ m ∈ M, '\n' ∉ m) (hel : '\n' ∉ el) :
    do_paste ("range" :: a :: b :: c :: rest)
        ⟨true, cf, A ++ sl :: (M ++ el :: B), ⟨r0, c0⟩, clip⟩ =
      .ok ⟨true, cf, A ++ sl :: (M ++ pyTake el (ec + 1) :: B),
           ⟨(A.length : Int) + 1 + (M.length : Int), ec + 1⟩,
           joinNl (pyDrop sl sc :: (M ++ [pyTake el (ec + 1)]))⟩ := by
  rw [do_paste_range_eq _ rfl hclip (by simp) a b (c :: rest)]
  have hnem : ¬ ((A.length : Int) = (A.length : Int) + 1 + (M.length : Int)) := by omega
  have hget_sl : pyGet (A ++ sl :: (M ++ el :: B)) ((A.length : Int)) = some sl :=
    pyGet_append_cons A (M ++ el :: B) sl
  have hmid : midLines (A ++ sl :: (M ++ el :: B)) ((A.length : Int) + 1)
      ((A.length : Int) + 1 + (M.length : Int)) = some M :=
    midLines_mid A sl M (el :: B)
  have hcast : ((A.length : Int) + 1 + (M.length : Int)) = (((A ++ sl :: M).length : Nat) : Int) := by
    simp
    omega
  have hget_el : pyGet (A ++ sl :: (M ++ el :: B)) ((A.length : Int) + 1 + (M.length : Int)) =
      some el := by
    rw [show A ++ sl :: (M ++ el :: B) = (A ++ sl :: M) ++ el :: B from by simp, hcast]
    exact pyGet_append_cons (A ++ sl :: M) B el
  have hset1 : pySet (A ++ sl :: (M ++ el :: B)) ((A.length : Int)) (pyTake sl sc) =
      some (A ++ pyTake sl sc :: (M ++ el :: B)) :=
    pySet_append_cons A (M ++ el :: B) sl (pyTake sl sc)
  have hget_el1 : pyGet (A ++ pyTake sl sc :: (M ++ el :: B))
      ((A.length : Int) + 1 + (M.length : Int)) = some el := by
    have hcast1 : ((A.length : Int) + 1 + (M.length : Int)) =
        (((A ++ pyTake sl sc :: M).length : Nat) : Int) := by
      simp
      omega
    rw [show A ++ pyTake sl sc :: (M ++ el :: B) = (A ++ pyTake sl sc :: M) ++ el :: B from by
      simp, hcast1]
    exact pyGet_append_cons (A ++ pyTake sl sc :: M) B el
  have hget_sl1 : pyGet (A ++ pyTake sl sc :: (M ++ el :: B)) ((A.length : Int)) =
      some (pyTake sl sc) :=
    pyGet_append_cons A (M ++ el :: B) (pyTake sl sc)
  have hset2 : pySet (A ++ pyTake sl sc :: (M ++ el :: B)) ((A.length : Int))
      (pyTake sl sc ++ pyDrop el (ec + 1)) =
      some (A ++ (pyTake sl sc ++ pyDrop el (ec + 1)) :: (M ++ el :: B)) :=
    pySet_append_cons A (M ++ el :: B) (pyTake sl sc) _
  have hdel : pyDelSlice (A ++ (pyTake sl sc ++ pyDrop el (ec + 1)) :: (M ++ el :: B))
      ((A.length : Int) + 1) ((A.length : Int) + 1 + (M.length : Int) + 1) =
      A ++ (pyTake sl sc ++ pyDrop el (ec + 1)) :: B := by
    have e1 : M ++ el :: B = (M ++ [el]) ++ B := by simp
    have e2 : ((A.length : Int) + 1 + (M.length : Int) + 1) =
        ((A.length : Int) + 1 + (((M ++ [el]).length : Nat) : Int)) := by
      simp
      omega
    rw [e1, e2]
    exact pyDelSlice_mid A (M ++ [el]) B (pyTake sl sc ++ pyDrop el (ec + 1))
  have hl0 : '\n' ∉ pyDrop sl sc := not_mem_pyDrop sl sc '\n' hsl
  have hparts : ∀ z ∈ pyDrop sl sc :: (M ++ [pyTake el (ec + 1)]), '\n' ∉ z := by
    intro z hz
    rcases List.mem_cons.mp hz with hz | hz
    · exact hz ▸ hl0
    · rcases List.mem_append.mp hz with hz | hz
      · exact hM z hz
      · rw [List.mem_singleton.mp hz]
        exact not_mem_pyTake el (ec + 1) '\n' hel
  have hsplit : pySplitNl (joinNl (pyDrop sl sc :: (M ++ [pyTake el (ec + 1)]))) =
      pyDrop sl sc :: (M ++ [pyTake el (ec + 1)]) :=
    pySplitNl_joinNl _ (by simp) hparts
  have hlast : (M ++ [pyTake el (ec + 1)]).getLast? = some (pyTake el (ec + 1)) :=
    List.getLast?_concat M
  have hpc := paste_content_multi true cf
    (joinNl (pyDrop sl sc :: (M ++ [pyTake el (ec + 1)]))) A B
    (pyTake sl sc ++ pyDrop el (ec + 1)) (pyDrop sl sc) (pyTake el (ec + 1))
    (M ++ [pyTake el (ec + 1)])
    (joinNl (pyDrop sl sc :: (M ++ [pyTake el (ec + 1)]))) sc hsplit hlast
  have hlen_take : ((pyTake sl sc).length : Int) = sc := length_pyTake_of_le sl sc h0 h1
  have htk : pyTake (pyTake sl sc ++ pyDrop el (ec + 1)) sc = pyTake sl sc :=
    pyTake_left_of_prefix _ _ sc hlen_take
  have hglue : pyTake sl sc ++ pyDrop sl sc = sl := pyTake_append_pyDrop sl sc h0
  have hcol : ((pyTake el (ec + 1)).length : Int) = ec + 1 :=
    length_pyTake_of_le el (ec + 1) (by omega) (by omega)
  simp only [paste_range, hpa, hpb, if_neg hnem, hget_sl, hmid, hget_el, hset1,
    hget_el1, hget_sl1, hset2, hdel, List.cons_append]
  rw [hpc]
  simp only [htk, Res.ok.injEq, EState.mk.injEq, Cursor.mk.injEq, and_true, true_and]
  refine ⟨?_, ?_, ?_⟩
  · rw [hglue]
    simp
  · simp
    omega
  · rw [hcol]

/-- Claim C3, counterexample: cutting and pasting the valid cross-line range
`(1,1)-(2,1)` of `["ab","cd"]` (user syntax, end column 1 < length 2) yields
`["ab","c"]` — the `"d"` after the range on the end row is lost — so the
command is not a content no-op on every valid range. -/
theorem C3_counterexample :
    do_paste ["range", "1,1", "2,1", "x"]
        ⟨true, some "f", ["ab".toList, "cd".toList], ⟨0, 0⟩, "Z".toList⟩ =
      .ok ⟨true, some "f", ["ab".toList, "c".toList], ⟨1, 1⟩, "ab\nc".toList⟩ ∧
    (["ab".toList, "c".toList] : List Line) ≠ ["ab".toList, "cd".toList] := by
  exact ⟨by decide, by decide⟩

/-- Claim C3 (amended): cut-and-paste of a valid same-row range is a content
no-op with the cursor left at `(row, endCol + 1)` and the clipboard holding
the extracted text; for a valid cross-line range it restores everything
except the suffix of the end row after the range, which is lost — the result
equals the original document with the end row truncated to its first
`endCol + 1` characters, cursor `(endRow, endCol + 1)` — hence a content
no-op exactly when the range runs to the end row's last character. -/
theorem C3_amended_cut_paste :
    (∀ (cf : Option String) (clip : Line) (A B : List Line) (cur : Line) (x y : String)
        (sc ec r0c : Int),
        clip ≠ [] → pyInt x = some (sc + 1) → pyInt y = some (ec + 1) →
        0 ≤ sc → sc ≤ ec → ec < (cur.length : Int) → '\n' ∉ cur →
        do_paste ["range", x, y] ⟨true, cf, A ++ cur :: B, ⟨(A.length : Int), r0c⟩, clip⟩ =
          .ok ⟨true, cf, A ++ cur :: B, ⟨(A.length : Int), ec + 1⟩,
               pySlice cur sc (ec + 1)⟩) ∧
    (∀ (cf : Option String) (clip : Line) (A M B : List Line) (sl el : Line)
        (a b c : String) (rest : List String) (sc ec r0 c0 : Int),
        clip ≠ [] →
        parsePair a = some ((A.length : Int), sc) →
        parsePair b = some ((A.length : Int) + 1 + (M.length : Int), ec) →
        0 ≤ sc → sc ≤ (sl.length : Int) → 0 ≤ ec → ec < (el.length : Int) →
        '\n' ∉ sl → (∀ m ∈ M, '\n' ∉ m) → '\n' ∉ el →
        do_paste ("range" :: a :: b :: c :: rest)
            ⟨true, cf, A ++ sl :: (M ++ el :: B), ⟨r0, c0⟩, clip⟩ =
          .ok ⟨true, cf, A ++ sl :: (M ++ pyTake el (ec + 1) :: B),
               ⟨(A.length : Int) + 1 + (M.length : Int), ec + 1⟩,
               joinNl (pyDrop sl sc :: (M ++ [pyTake el (ec + 1)]))⟩) :=
  ⟨fun cf clip A B cur x y sc ec r0c h1 h2 h3 h4 h5 h6 h7 =>
     cut_paste_same_row cf clip A B cur x y sc ec r0c h1 h2 h3 h4 h5 h6 h7,
   fun cf clip A M B sl el a b c rest sc ec r0 c0 hc hpa hpb h0 h1 h2 h3 hs hm he =>
     cut_paste_cross cf clip A M B sl el a b c rest sc ec r0 c0 hc hpa hpb h0 h1 h2 h3 hs hm he⟩

/-- Witness for C3: the same-row cut-paste `paste range 2 4` on `["abcdef"]`
(a content no-op, cursor ends at column 4) and the cross-line
`paste range 1,1 2,2 x` on `["ab","cd"]` whose range runs to the end of row
2 (also a content no-op). -/
theorem C3_witness :
    do_paste ["range", "2", "4"]
        ⟨true, some "f", [] ++ "abcdef".toList :: [], ⟨(([] : List Line).length : Int), 0⟩,
         "Z".toList⟩ =
      .ok ⟨true, some "f", [] ++ "abcdef".toList :: [],
           ⟨(([] : List Line).length : Int), 3 + 1⟩, pySlice "abcdef".toList 1 (3 + 1)⟩ ∧
    do_paste ["range", "1,1", "2,2", "x"]
        ⟨true, some "f", [] ++ "ab".toList :: ([] ++ "cd".toList :: []), ⟨0, 0⟩, "Z".toList⟩ =
      .ok ⟨true, some "f", [] ++ "ab".toList :: ([] ++ pyTake "cd".toList (1 + 1) :: []),
           ⟨(([] : List Line).length : Int) + 1 + (([] : List Line).length : Int), 1 + 1⟩,
           joinNl (pyDrop "ab".toList 0 :: ([] ++ [pyTake "cd".toList (1 + 1)]))⟩ :=
  ⟨C3_amended_cut_paste.1 (some "f") "Z".toList [] [] "abcdef".toList "2" "4" 1 3 0
     (by decide) (by decide) (by decide) (by decide) (by decide) (by decide) (by decide),
   C3_amended_cut_paste.2 (some "f") "Z".toList [] [] [] "ab".toList "cd".toList
     "1,1" "2,2" "x" [] 0 1 0 0
     (by decide) (by decide) (by decide) (by decide) (by decide) (by decide) (by decide)
     (by decide) (by decide) (by decide)⟩

/-! ### Claim C2 -/

theorem pySet_of_lt (l : List α) (i : Int) (x : α) (h0 : 0 ≤ i) (h1 : i < (l.length : Int)) :
    pySet l i x = some (l.set i.toNat x) := by
  simp only [pySet]
  rw [if_neg (by omega : ¬ i < 0), if_pos ⟨h0, h1⟩]

theorem pyGet_some_of_lt (l : List α) (i : Int) (h0 : 0 ≤ i) (h1 : i.toNat < l.length) :
    pyGet l i = some l[i.toNat] := by
  rw [pyGet_of_lt _ _ h0 (by omega), List.getElem?_eq_getElem h1]

/-- Claim C2, counterexample: `del range 1,1 2,5 x` on `["ab","cd"]` is
accepted and deletes, though the end column (0-based 4) is far beyond the
end row's length — no cross-line column validation happens — and
`paste range 2,1 1,1 x` (reversed rows) is accepted and mutates where
`del range` with the same tokens is rejected, so the range commands do not
accept the same set of ranges. -/
theorem C2_counterexample :
    do_del ["range", "1,1", "2,5", "x"]
        ⟨true, some "f", ["ab".toList, "cd".toList], ⟨0, 0⟩, "Z".toList⟩ =
      .ok ⟨true, some "f", [[]], ⟨0, 0⟩, "Z".toList⟩ ∧
    (do_paste ["range", "2,1", "1,1", "x"]
        ⟨true, some "f", ["ab".toList, "cd".toList], ⟨0, 0⟩, "Z".toList⟩).isOk = true ∧
    (do_del ["range", "2,1", "1,1", "x"]
        ⟨true, some "f", ["ab".toList, "cd".toList], ⟨0, 0⟩, "Z".toList⟩).isOk = false := by
  exact ⟨by decide, by decide, by decide⟩

/-- Claim C2 (amended): `del range` and `copy range` (with coordinate tokens,
not `all`) accept exactly the same set of ranges on a well-formed active
state, and whenever they reject, both leave the whole state unchanged.
`paste range` accepts strictly more (no row-order or lower-bound checks) and
no command validates cross-line columns, per the counterexample. -/
theorem C2_amended_del_copy_agree (s : EState) (a b : String) (rest : List String)
    (hact : s.is_active = true) (hwf : WfState s) (ha : a ≠ "all") :
    ((do_del ("range" :: a :: b :: rest) s).isOk
       = (do_copy ("range" :: a :: b :: rest) s).isOk) ∧
    ((do_del ("range" :: a :: b :: rest) s).isOk = false →
       (do_del ("range" :: a :: b :: rest) s).state = s ∧
       (do_copy ("range" :: a :: b :: rest) s).state = s) := by
  obtain ⟨hlen, hr0, hrlt, hc0, curl, hgetc, hcoll⟩ := hwf hact
  have hcontent : s.content ≠ [] := by
    intro h
    rw [h] at hlen
    simp at hlen
  rw [do_del_range_eq s hact hcontent a (b :: rest) ha,
      do_copy_range_eq s hact hcontent a b rest]
  cases rest with
  | nil =>
    simp only [del_range, copy_range]
    cases hpa : pyInt a with
    | none =>
      cases hpb : pyInt b with
      | none => simp [Res.isOk, Res.state]
      | some bv => simp [Res.isOk, Res.state]
    | some av =>
      cases hpb : pyInt b with
      | none => simp [Res.isOk, Res.state]
      | some bv =>
        have hrows2 : ¬ (s.cursor.row < 0 ∨ (s.content.length : Int) ≤ s.cursor.row) := by
          omega
        by_cases h1 : av < 1 ∨ bv < av
        · have hcols : av < 1 ∨ bv < av ∨ (curl.length : Int) ≤ bv - 1 := by tauto
          simp [hgetc, h1, hcols, hrows2, Res.isOk, Res.state]
        · by_cases h2 : (curl.length : Int) ≤ bv - 1
          · have hcols : av < 1 ∨ bv < av ∨ (curl.length : Int) ≤ bv - 1 := by tauto
            simp [hgetc, h1, h2, hcols, hrows2, Res.isOk, Res.state]
          · have hcols : ¬ (av < 1 ∨ bv < av ∨ (curl.length : Int) ≤ bv - 1) := by tauto
            have hset := pySet_of_lt s.content s.cursor.row
              (pyTake curl (av - 1) ++ pyDrop curl bv) hr0 hrlt
            simp [hgetc, h1, h2, hcols, hrows2, hset, Res.isOk, Res.state]
  | cons c rest' =>
    simp only [del_range, copy_range]
    cases hpa : parsePair a with
    | none =>
      cases hpb : parsePair b with
      | none => simp [Res.isOk, Res.state]
      | some pb => simp [Res.isOk, Res.state]
    | some pa =>
      cases hpb : parsePair b with
      | none => simp [Res.isOk, Res.state]
      | some pb =>
        obtain ⟨sr, sc⟩ := pa
        obtain ⟨er, ec⟩ := pb
        by_cases hrows : sr < 0 ∨ er < sr ∨ (s.content.length : Int) ≤ er
        · simp [if_pos hrows, Res.isOk, Res.state]
        · have hsrlt : sr.toNat < s.content.length := by omega
          have hgets : pyGet s.content sr = some s.content[sr.toNat] :=
            pyGet_some_of_lt s.content sr (by omega) hsrlt
          by_cases hser : sr = er
          · by_cases hcols : sc < 0 ∨ ec < sc ∨
                ((s.content[sr.toNat]).length : Int) ≤ ec
            · simp [if_neg hrows, if_pos hser, hgets, if_pos hcols, Res.isOk, Res.state]
            · have hset := pySet_of_lt s.content sr
                (pyTake s.content[sr.toNat] sc ++ pyDrop s.content[sr.toNat] (ec + 1))
                (by omega) (by omega)
              simp [if_neg hrows, if_pos hser, hgets, if_neg hcols, hset,
                Res.isOk, Res.state]
          · -- cross-line: both commands accept
            have hset1 := pySet_of_lt s.content sr (pyTake s.content[sr.toNat] sc)
              (by omega) (by omega)
            have hlen1 : (s.content.set sr.toNat (pyTake s.content[sr.toNat] sc)).length
                = s.content.length := by simp
            have herlt : er.toNat <
                (s.content.set sr.toNat (pyTake s.content[sr.toNat] sc)).length := by
              rw [hlen1]
              omega
            have hgete1 := pyGet_some_of_lt _ er (by omega) herlt
            have hgets1 := pyGet_some_of_lt
              (s.content.set sr.toNat (pyTake s.content[sr.toNat] sc)) sr (by omega)
              (by rw [hlen1]; omega)
            have hset2 := pySet_of_lt
              (s.content.set sr.toNat (pyTake s.content[sr.toNat] sc)) sr
              (pyTake s.content[sr.toNat] sc ++
                pyDrop (s.content.set sr.toNat
                  (pyTake s.content[sr.toNat] sc))[er.toNat] (ec + 1))
              (by omega) (by rw [hlen1]; omega)
            obtain ⟨Mm, hMm⟩ := midLinesAux_isSome s.content (er - (sr + 1)).toNat (sr + 1)
              (by omega) (by omega)
            have hgete : pyGet s.content er = some s.content[er.toNat] :=
              pyGet_some_of_lt s.content er (by omega) (by omega)
            simp [if_neg hrows, if_neg hser, hgets, hset1, hgete1, hgets1, hset2,
              midLines, hMm, hgete, Res.isOk, Res.state]

/-- Witness for C2: `del range 2 9` and `copy range 2 9` on `["abcdef"]`
(end column out of range) are rejected identically with no mutation. -/
theorem C2_witness :
    ((do_del ["range", "2", "9"]
        ⟨true, some "f", ["abcdef".toList], ⟨0, 0⟩, []⟩).isOk
       = (do_copy ["range", "2", "9"]
        ⟨true, some "f", ["abcdef".toList], ⟨0, 0⟩, []⟩).isOk) ∧
    ((do_del ["range", "2", "9"]
        ⟨true, some "f", ["abcdef".toList], ⟨0, 0⟩, []⟩).isOk = false →
       (do_del ["range", "2", "9"]
          ⟨true, some "f", ["abcdef".toList], ⟨0, 0⟩, []⟩).state =
         ⟨true, some "f", ["abcdef".toList], ⟨0, 0⟩, []⟩ ∧
       (do_copy ["range", "2", "9"]
          ⟨true, some "f", ["abcdef".toList], ⟨0, 0⟩, []⟩).state =
         ⟨true, some "f", ["abcdef".toList], ⟨0, 0⟩, []⟩) :=
  C2_amended_del_copy_agree ⟨true, some "f", ["abcdef".toList], ⟨0, 0⟩, []⟩ "2" "9" [] rfl
    (fun _ => ⟨by decide, by decide, by decide, by decide,
      "abcdef".toList, by decide, by decide⟩)
    (by decide)

/-! ### Claim C1: invariant preservation -/

theorem wf_decomp (s : EState) (hwf : WfState s) (hact : s.is_active = true) :
    ∃ A cur B, s.content = A ++ cur :: B ∧ ((A.length : Nat) : Int) = s.cursor.row ∧
      0 ≤ s.cursor.col ∧ s.cursor.col ≤ (cur.length : Int) := by
  obtain ⟨hlen, hr0, hrlt, hc0, curl, hget, hcol⟩ := hwf hact
  obtain ⟨A, x, B, hdec, hA⟩ := exists_three_decomp s.content s.cursor.row.toNat (by omega)
  have hrw : s.cursor.row = ((A.length : Nat) : Int) := by omega
  have hx : pyGet s.content s.cursor.row = some x := by
    rw [hdec, hrw]
    exact pyGet_append_cons A B x
  have hxc : x = curl := Option.some.inj (hx ▸ hget)
  exact ⟨A, x, B, hdec, by omega, hc0, by rw [hxc]; exact hcol⟩

theorem wf_set_col (s : EState) (v : Int) (hwf0 : 1 ≤ s.content.length)
    (hr0 : 0 ≤ s.cursor.row) (hrlt : s.cursor.row < (s.content.length : Int))
    (curl : Line) (hget : pyGet s.content s.cursor.row = some curl)
    (h0 : 0 ≤ v) (h1 : v ≤ (curl.length : Int)) :
    WfState { s with cursor := { s.cursor with col := v } } := by
  intro _
  exact ⟨hwf0, hr0, hrlt, h0, curl, hget, h1⟩

theorem wf_open_state (cf : Option String) (l0 : Line) (ls : List Line) :
    WfState ⟨true, cf, l0 :: ls, ⟨0, 0⟩, []⟩ := by
  intro _
  refine ⟨?_, ?_, ?_, ?_, l0, ?_, ?_⟩
  · show 1 ≤ (l0 :: ls).length
    simp
  · show (0 : Int) ≤ 0
    exact le_rfl
  · show (0 : Int) < ((l0 :: ls).length : Int)
    simp only [List.length_cons]
    omega
  · show (0 : Int) ≤ 0
    exact le_rfl
  · show pyGet (l0 :: ls) 0 = some l0
    exact pyGet_zero_cons l0 ls
  · show (0 : Int) ≤ (l0.length : Int)
    omega

theorem wf_do_open (fc : Option (List Char)) (fname : String) (s : EState)
    (hwf : WfState s) (hsafe : fc ≠ some []) : WfState ((do_open fc fname s).state) := by
  by_cases hn : fname = ""
  · have hst : (do_open fc fname s).state = s := by simp [do_open, hn, Res.state]
    rw [hst]
    exact hwf
  · cases fc with
    | none =>
      have hst : (do_open none fname s).state = ⟨true, some fname, [[]], ⟨0, 0⟩, []⟩ := by
        simp [do_open, hn, Res.state]
      rw [hst]
      exact wf_open_state (some fname) [] []
    | some t =>
      have ht : t ≠ [] := by
        intro h
        exact hsafe (by rw [h])
      have hload : loadLines t ≠ [] := by
        unfold loadLines
        simp only [ne_eq, List.map_eq_nil_iff]
        exact readlines_ne_nil t ht
      rcases hl : loadLines t with _ | ⟨l0, ls⟩
      · exact absurd hl hload
      · have hst : (do_open (some t) fname s).state =
            ⟨true, some fname, l0 :: ls, ⟨0, 0⟩, []⟩ := by
          simp [do_open, hn, Res.state, hl]
        rw [hst]
        exact wf_open_state (some fname) l0 ls

theorem wf_do_move (args : List String) (s : EState) (hwf : WfState s) :
    WfState ((do_move args s).state) := by
  cases hact : s.is_active with
  | false =>
    have hst : (do_move args s).state = s := by simp [do_move, hact, Res.state]
    rw [hst]
    exact hwf
  | true =>
    obtain ⟨hlen, hr0, hrlt, hc0, curl, hget, hcoll⟩ := hwf hact
    have hcontent : s.content ≠ [] := by
      intro h
      rw [h] at hlen
      simp at hlen
    have hgate : ¬ (s.is_active = false) := by
      rw [hact]
      simp
    cases args with
    | nil =>
      have hst : (do_move [] s).state = s := by simp [do_move, hact, Res.state]
      rw [hst]
      exact hwf
    | cons a0 rest =>
      simp only [do_move]
      rw [if_neg hgate]
      by_cases hs : pyLower a0 = "start"
      · rw [if_pos hs]
        exact wf_set_col s 0 hlen hr0 hrlt curl hget le_rfl (by omega)
      · rw [if_neg hs]
        by_cases he : pyLower a0 = "end"
        · rw [if_pos he, if_neg hcontent]
          simp only [hget]
          exact wf_set_col s (curl.length : Int) hlen hr0 hrlt curl hget (by omega) le_rfl
        · rw [if_neg he]
          rcases rest with _ | ⟨c0, rest2⟩
          · have h1 : ¬ ((1 : Int) ≤ 0) := by omega
            simp only [if_neg h1, if_neg hcontent, hget]
            by_cases hl : pyLower a0 = "left"
            · rw [if_pos hl]
              exact wf_set_col s (max 0 (s.cursor.col - 1)) hlen hr0 hrlt curl hget
                (by omega) (by omega)
            · rw [if_neg hl]
              by_cases hr : pyLower a0 = "right"
              · rw [if_pos hr]
                exact wf_set_col s (min (curl.length : Int) (s.cursor.col + 1))
                  hlen hr0 hrlt curl hget (by omega) (by omega)
              · rw [if_neg hr]
                exact fun h => hwf h
          · cases hpi : pyInt c0 with
            | none =>
              simp only [hpi]
              exact fun h => hwf h
            | some count =>
              simp only [hpi]
              by_cases hc : count ≤ 0
              · rw [if_pos hc]
                exact fun h => hwf h
              · rw [if_neg hc, if_neg hcontent]
                simp only [hget]
                by_cases hl : pyLower a0 = "left"
                · rw [if_pos hl]
                  exact wf_set_col s (max 0 (s.cursor.col - count)) hlen hr0 hrlt curl hget
                    (by omega) (by omega)
                · rw [if_neg hl]
                  by_cases hr : pyLower a0 = "right"
                  · rw [if_pos hr]
                    exact wf_set_col s (min (curl.length : Int) (s.cursor.col + count))
                      hlen hr0 hrlt curl hget (by omega) (by omega)
                  · rw [if_neg hr]
                    exact fun h => hwf h

theorem wf_mk_state (s : EState) (c2 : List Line) (r v : Int)
    (h1 : 1 ≤ c2.length) (h2 : 0 ≤ r) (h3 : r < (c2.length : Int)) (h4 : 0 ≤ v)
    (l : Line) (h5 : pyGet c2 r = some l) (h6 : v ≤ (l.length : Int)) :
    WfState { s with content := c2, cursor := ⟨r, v⟩ } := by
  intro _
  exact ⟨h1, h2, h3, h4, l, h5, h6⟩

theorem wf_do_line (arg : String) (s : EState) (hwf : WfState s) :
    WfState ((do_line arg s).state) := by
  cases hact : s.is_active with
  | false =>
    have hst : (do_line arg s).state = s := by simp [do_line, hact, Res.state]
    rw [hst]
    exact hwf
  | true =>
    obtain ⟨hlen, hr0, hrlt, hc0, curl, hget, hcoll⟩ := hwf hact
    have hcontent : s.content ≠ [] := by
      intro h
      rw [h] at hlen
      simp at hlen
    have hgate : ¬ (s.is_active = false) := by
      rw [hact]
      simp
    simp only [do_line]
    rw [if_neg hgate, if_neg hcontent]
    by_cases harg : arg = ""
    · rw [if_pos harg]
      exact fun h => hwf h
    · rw [if_neg harg]
      by_cases hs : pyLower arg = "start"
      · rw [if_pos hs]
        have hg0 : pyGet s.content 0 = some s.content[(0 : Int).toNat] :=
          pyGet_some_of_lt s.content 0 (by omega) (by omega)
        simp only [hg0]
        exact wf_mk_state s s.content 0 (min s.cursor.col (s.content[(0 : Int).toNat].length : Int))
          hlen le_rfl (by omega) (by omega) s.content[(0 : Int).toNat] hg0 (by omega)
      · rw [if_neg hs]
        by_cases he : pyLower arg = "end"
        · rw [if_pos he]
          have hge : pyGet s.content ((s.content.length : Int) - 1) =
              some s.content[((s.content.length : Int) - 1).toNat] :=
            pyGet_some_of_lt s.content _ (by omega) (by omega)
          simp only [hge]
          exact wf_mk_state s s.content ((s.content.length : Int) - 1)
            (min s.cursor.col (s.content[((s.content.length : Int) - 1).toNat].length : Int))
            hlen (by omega) (by omega) (by omega)
            s.content[((s.content.length : Int) - 1).toNat] hge (by omega)
        · rw [if_neg he]
          cases hpi : pyInt arg with
          | none => exact fun h => hwf h
          | some n =>
            simp only []
            by_cases hn : n < 1 ∨ (s.content.length : Int) < n
            · rw [if_pos hn]
              exact fun h => hwf h
            · rw [if_neg hn]
              have hgn : pyGet s.content (n - 1) = some s.content[(n - 1).toNat] :=
                pyGet_some_of_lt s.content _ (by omega) (by omega)
              simp only [hgn]
              exact wf_mk_state s s.content (n - 1)
                (min s.cursor.col (s.content[(n - 1).toNat].length : Int))
                hlen (by omega) (by omega) (by omega)
                s.content[(n - 1).toNat] hgn (by omega)

theorem wf_do_break (s : EState) (hwf : WfState s) : WfState ((do_break s).state) := by
  cases hact : s.is_active with
  | false =>
    have hst : (do_break s).state = s := by simp [do_break, hact, Res.state]
    rw [hst]
    exact hwf
  | true =>
    obtain ⟨A, cur, B, hdec, hrow, hc0, hc1⟩ := wf_decomp s hwf hact
    have hlen : 1 ≤ s.content.length := by
      rw [hdec]
      simp
      omega
    have hcontent : s.content ≠ [] := by
      intro h
      rw [h] at hlen
      simp at hlen
    have hgate : ¬ (s.is_active = false) := by
      rw [hact]
      simp
    have hbound : ¬ (s.cursor.row < 0 ∨ (s.content.length : Int) ≤ s.cursor.row) := by
      rw [hdec]
      simp only [List.length_append, List.length_cons]
      omega
    have hget : pyGet s.content s.cursor.row = some cur := by
      rw [hdec, ← hrow]
      exact pyGet_append_cons A B cur
    have hset : pySet s.content s.cursor.row (pyTake cur s.cursor.col) =
        some (A ++ pyTake cur s.cursor.col :: B) := by
      rw [hdec, ← hrow]
      exact pySet_append_cons A B cur _
    have hins : pyInsert (A ++ pyTake cur s.cursor.col :: B) (s.cursor.row + 1)
        (pyDrop cur s.cursor.col) =
        A ++ pyTake cur s.cursor.col :: pyDrop cur s.cursor.col :: B := by
      rw [← hrow]
      exact pyInsert_append_cons A B _ _
    simp only [do_break]
    rw [if_neg hgate]
    simp only [if_neg hcontent, if_neg hbound, hget, hset, hins]
    have hget2 : pyGet (A ++ pyTake cur s.cursor.col :: pyDrop cur s.cursor.col :: B)
        (s.cursor.row + 1) = some (pyDrop cur s.cursor.col) := by
      rw [show A ++ pyTake cur s.cursor.col :: pyDrop cur s.cursor.col :: B =
        (A ++ [pyTake cur s.cursor.col]) ++ pyDrop cur s.cursor.col :: B from by simp]
      rw [show s.cursor.row + 1 = (((A ++ [pyTake cur s.cursor.col]).length : Nat) : Int) from by
        simp
        omega]
      exact pyGet_append_cons _ B _
    exact wf_mk_state s _ (s.cursor.row + 1) 0
      (by simp; omega) (by omega)
      (by simp only [List.length_append, List.length_cons]; omega)
      le_rfl (pyDrop cur s.cursor.col) hget2 (by omega)

theorem wf_do_write (text : List Char) (s : EState) (hwf : WfState s) :
    WfState ((do_write text s).state) := by
  cases hact : s.is_active with
  | false =>
    have hst : (do_write text s).state = s := by simp [do_write, hact, Res.state]
    rw [hst]
    exact hwf
  | true =>
    obtain ⟨A, cur, B, hdec, hrow, hc0, hc1⟩ := wf_decomp s hwf hact
    have hlen : 1 ≤ s.content.length := by
      rw [hdec]
      simp
      omega
    have hcontent : s.content ≠ [] := by
      intro h
      rw [h] at hlen
      simp at hlen
    have hgate : ¬ (s.is_active = false) := by
      rw [hact]
      simp
    by_cases htext : text = []
    · have hst : (do_write text s).state = s := by
        simp [do_write, hact, htext, Res.state]
      rw [hst]
      exact hwf
    · have hget : pyGet s.content s.cursor.row = some cur := by
        rw [hdec, ← hrow]
        exact pyGet_append_cons A B cur
      have hset : pySet s.content s.cursor.row
          (pyTake cur s.cursor.col ++ text ++ pyDrop cur s.cursor.col) =
          some (A ++ (pyTake cur s.cursor.col ++ text ++ pyDrop cur s.cursor.col) :: B) := by
        rw [hdec, ← hrow]
        exact pySet_append_cons A B cur _
      simp only [do_write]
      rw [if_neg hgate, if_neg htext]
      simp only [if_neg hcontent, hget, hset]
      have hgetn : pyGet (A ++ (pyTake cur s.cursor.col ++ text ++ pyDrop cur s.cursor.col) :: B)
          s.cursor.row =
          some (pyTake cur s.cursor.col ++ text ++ pyDrop cur s.cursor.col) := by
        rw [← hrow]
        exact pyGet_append_cons A B _
      have hlt : ((pyTake cur s.cursor.col).length : Int) = s.cursor.col :=
        length_pyTake_of_le cur _ hc0 hc1
      exact wf_mk_state s _ s.cursor.row (s.cursor.col + (text.length : Int))
        (by simp; omega) (by omega)
        (by rw [← hrow]; simp only [List.length_append, List.length_cons]; omega)
        (by omega) _ hgetn
        (by simp only [List.length_append]; omega)

theorem wf_do_space (arg : String) (s : EState) (hwf : WfState s) :
    WfState ((do_space arg s).state) := by
  cases hact : s.is_active with
  | false =>
    have hst : (do_space arg s).state = s := by simp [do_space, hact, Res.state]
    rw [hst]
    exact hwf
  | true =>
    obtain ⟨A, cur, B, hdec, hrow, hc0, hc1⟩ := wf_decomp s hwf hact
    have hlen : 1 ≤ s.content.length := by
      rw [hdec]
      simp
      omega
    have hcontent : s.content ≠ [] := by
      intro h
      rw [h] at hlen
      simp at hlen
    have hgate : ¬ (s.is_active = false) := by
      rw [hact]
      simp
    simp only [do_space]
    rw [if_neg hgate]
    simp only [if_neg hcontent]
    cases hpi : (if arg = "" then some (1 : Int) else pyInt arg) with
    | none => exact fun h => hwf h
    | some count =>
      simp only []
      by_cases hcnt : count ≤ 0
      · rw [if_pos hcnt]
        exact fun h => hwf h
      · rw [if_neg hcnt]
        have hget : pyGet s.content s.cursor.row = some cur := by
          rw [hdec, ← hrow]
          exact pyGet_append_cons A B cur
        have hset : pySet s.content s.cursor.row
            (pyTake cur s.cursor.col ++ List.replicate count.toNat ' '
              ++ pyDrop cur s.cursor.col) =
            some (A ++ (pyTake cur s.cursor.col ++ List.replicate count.toNat ' '
              ++ pyDrop cur s.cursor.col) :: B) := by
          rw [hdec, ← hrow]
          exact pySet_append_cons A B cur _
        simp only [hget, hset]
        have hgetn : pyGet (A ++ (pyTake cur s.cursor.col ++ List.replicate count.toNat ' '
            ++ pyDrop cur s.cursor.col) :: B) s.cursor.row =
            some (pyTake cur s.cursor.col ++ List.replicate count.toNat ' '
              ++ pyDrop cur s.cursor.col) := by
          rw [← hrow]
          exact pyGet_append_cons A B _
        have hlt : ((pyTake cur s.cursor.col).length : Int) = s.cursor.col :=
          length_pyTake_of_le cur _ hc0 hc1
        exact wf_mk_state s _ s.cursor.row (s.cursor.col + count)
          (by simp; omega) (by omega)
          (by rw [← hrow]; simp only [List.length_append, List.length_cons]; omega)
          (by omega) _ hgetn
          (by simp only [List.length_append, List.length_replicate]; omega)

theorem wf_delete_chars (count : Int) (s : EState) (hwf : WfState s)
    (hact : s.is_active = true) (hcount : 1 ≤ count) :
    WfState ((delete_chars count s).state) := by
  obtain ⟨A, cur, B, hdec, hrow, hc0, hc1⟩ := wf_decomp s hwf hact
  by_cases hcol : s.cursor.col = 0
  · by_cases hr : s.cursor.row = 0
    · have hst : (delete_chars count s).state = s := by
        simp [delete_chars, hcol, hr, Res.state]
      rw [hst]
      exact hwf
    · have hA : A ≠ [] := by
        intro h
        rw [h] at hrow
        simp at hrow
        obtain ⟨hlen', hr0', _⟩ := hwf hact
        exact hr (by omega)
      rcases List.eq_nil_or_concat A with rfl | ⟨A2, prev, rfl⟩
      · exact absurd rfl hA
      · have hdec2 : s.content = A2 ++ prev :: cur :: B := by
          rw [hdec]
          simp
        have hrow2 : s.cursor.row = ((A2.length : Nat) : Int) + 1 := by
          rw [← hrow]
          simp
        have e : s.cursor.row - 1 = ((A2.length : Nat) : Int) := by omega
        have g1 : pyGet s.content (s.cursor.row - 1) = some prev := by
          rw [hdec2, e]
          exact pyGet_append_cons A2 (cur :: B) prev
        have g2 : pyGet s.content s.cursor.row = some cur := by
          rw [hdec2, hrow2,
            show ((A2.length : Nat) : Int) + 1 = (((A2 ++ [prev]).length : Nat) : Int) from by
              simp]
          rw [show A2 ++ prev :: cur :: B = (A2 ++ [prev]) ++ cur :: B from by simp]
          exact pyGet_append_cons (A2 ++ [prev]) B cur
        have g3 : pySet s.content (s.cursor.row - 1) (prev ++ cur) =
            some (A2 ++ (prev ++ cur) :: cur :: B) := by
          rw [hdec2, e]
          exact pySet_append_cons A2 (cur :: B) prev (prev ++ cur)
        have g4 : pyDelAt (A2 ++ (prev ++ cur) :: cur :: B) s.cursor.row =
            some (A2 ++ (prev ++ cur) :: B) := by
          rw [hrow2,
            show ((A2.length : Nat) : Int) + 1 = (((A2 ++ [prev ++ cur]).length : Nat) : Int)
              from by simp]
          rw [show A2 ++ (prev ++ cur) :: cur :: B = (A2 ++ [prev ++ cur]) ++ cur :: B from by
            simp]
          have h := pyDelAt_append_cons (A2 ++ [prev ++ cur]) B cur
          rw [h]
          simp
        have hg : pyGet (A2 ++ (prev ++ cur) :: B) ((A2.length : Nat) : Int) =
            some (prev ++ cur) := pyGet_append_cons A2 B (prev ++ cur)
        simp only [delete_chars]
        rw [if_pos hcol, if_neg hr]
        simp only [g1, g2, g3, g4]
        rw [e]
        exact wf_mk_state s _ ((A2.length : Nat) : Int) ((prev.length : Nat) : Int)
          (by simp; omega) (by omega) (by simp only [List.length_append, List.length_cons]; omega)
          (by omega) (prev ++ cur) hg (by simp only [List.length_append]; omega)
  · have hget : pyGet s.content s.cursor.row = some cur := by
      rw [hdec, ← hrow]
      exact pyGet_append_cons A B cur
    have hset : pySet s.content s.cursor.row
        (pyTake cur (s.cursor.col - min count s.cursor.col) ++ pyDrop cur s.cursor.col) =
        some (A ++ (pyTake cur (s.cursor.col - min count s.cursor.col)
          ++ pyDrop cur s.cursor.col) :: B) := by
      rw [hdec, ← hrow]
      exact pySet_append_cons A B cur _
    have hgn : pyGet (A ++ (pyTake cur (s.cursor.col - min count s.cursor.col)
        ++ pyDrop cur s.cursor.col) :: B) s.cursor.row =
        some (pyTake cur (s.cursor.col - min count s.cursor.col)
          ++ pyDrop cur s.cursor.col) := by
      rw [← hrow]
      exact pyGet_append_cons A B _
    have hlt : ((pyTake cur (s.cursor.col - min count s.cursor.col)).length : Int)
        = s.cursor.col - min count s.cursor.col :=
      length_pyTake_of_le cur _ (by omega) (by omega)
    have hld : ((pyDrop cur s.cursor.col).length : Int) = (cur.length : Int) - s.cursor.col :=
      length_pyDrop_of_le cur _ hc0 hc1
    simp only [delete_chars]
    rw [if_neg hcol]
    simp only [hget, hset]
    exact wf_mk_state s _ s.cursor.row (s.cursor.col - min count s.cursor.col)
      (by simp; omega) (by omega)
      (by rw [← hrow]; simp only [List.length_append, List.length_cons]; omega)
      (by omega) _ hgn
      (by simp only [List.length_append]; omega)

theorem wf_do_del (args : List String) (s : EState) (hwf : WfState s)
    (hsafe : crossRowDel args = false) : WfState ((do_del args s).state) := by
  cases hact : s.is_active with
  | false =>
    have hst : (do_del args s).state = s := by simp [do_del, hact, Res.state]
    rw [hst]
    exact hwf
  | true =>
    obtain ⟨hlen, hr0, hrlt, hc0, curl, hget, hcoll⟩ := hwf hact
    have hcontent : s.content ≠ [] := by
      intro h
      rw [h] at hlen
      simp at hlen
    cases args with
    | nil =>
      have hst : do_del [] s = delete_chars 1 s := by
        simp [do_del, hact, hcontent]
      rw [hst]
      exact wf_delete_chars 1 s hwf hact (by omega)
    | cons a0 rest =>
      by_cases hrange : a0 = "range"
      · cases rest with
        | nil =>
          have hst : (do_del [a0] s).state = s := by
            simp [do_del, hact, hcontent, hrange, Res.state]
          rw [hst]
          exact hwf
        | cons r0 rrest =>
          by_cases hall : r0 = "all"
          · have hst : (do_del (a0 :: r0 :: rrest) s).state =
                { s with content := [[]], cursor := ⟨0, 0⟩ } := by
              simp [do_del, hact, hcontent, hrange, hall, Res.state]
            rw [hst]
            exact wf_mk_state s [[]] 0 0 (by simp) le_rfl (by simp) le_rfl
              [] (pyGet_zero_cons [] []) (by simp)
          · rw [show a0 :: r0 :: rrest = "range" :: r0 :: rrest from by rw [hrange]]
            rw [do_del_range_eq s hact hcontent r0 rrest hall]
            cases rrest with
            | nil =>
              have hst : (del_range [r0] s).state = s := by
                simp [del_range, Res.state]
              rw [hst]
              exact hwf
            | cons r1 rrest2 =>
              cases rrest2 with
              | nil =>
                simp only [del_range]
                cases hpa : pyInt r0 with
                | none => exact fun h => hwf h
                | some av =>
                  cases hpb : pyInt r1 with
                  | none => exact fun h => hwf h
                  | some bv =>
                    simp only []
                    by_cases hv1 : av - 1 < 0 ∨ bv - 1 < av - 1
                    · rw [if_pos hv1]
                      exact fun h => hwf h
                    · rw [if_neg hv1]
                      simp only [hget]
                      by_cases hv2 : (curl.length : Int) ≤ bv - 1
                      · rw [if_pos hv2]
                        exact fun h => hwf h
                      · rw [if_neg hv2]
                        obtain ⟨A, cur, B, hdec, hrow, _, _⟩ := wf_decomp s hwf hact
                        have hcc : cur = curl := by
                          have : pyGet s.content s.cursor.row = some cur := by
                            rw [hdec, ← hrow]
                            exact pyGet_append_cons A B cur
                          exact Option.some.inj (this ▸ hget)
                        have hset : pySet s.content s.cursor.row
                            (pyTake curl (av - 1) ++ pyDrop curl (bv - 1 + 1)) =
                            some (A ++ (pyTake curl (av - 1) ++ pyDrop curl (bv - 1 + 1)) :: B) := by
                          rw [hdec, ← hrow]
                          exact pySet_append_cons A B cur _
                        simp only [hset]
                        have hgn : pyGet (A ++ (pyTake curl (av - 1)
                            ++ pyDrop curl (bv - 1 + 1)) :: B) s.cursor.row =
                            some (pyTake curl (av - 1) ++ pyDrop curl (bv - 1 + 1)) := by
                          rw [← hrow]
                          exact pyGet_append_cons A B _
                        refine wf_mk_state s _ s.cursor.row
                          (min (av - 1) (((pyTake curl (av - 1)
                            ++ pyDrop curl (bv - 1 + 1)).length : Nat) : Int))
                          (by simp; omega) (by omega)
                          (by rw [← hrow]; simp only [List.length_append, List.length_cons]; omega)
                          (by omega) _ hgn (by omega)
              | cons r2 rrest3 =>
                simp only [del_range]
                cases hpa : parsePair r0 with
                | none => exact fun h => hwf h
                | some pa =>
                  cases hpb : parsePair r1 with
                  | none =>
                    simp only []
                    exact fun h => hwf h
                  | some pb =>
                    obtain ⟨sr, sc⟩ := pa
                    obtain ⟨er, ec⟩ := pb
                    have hser : sr = er := by
                      by_contra hne
                      have : crossRowDel ("range" :: r0 :: r1 :: r2 :: rrest3) = true := by
                        simp only [crossRowDel, hpa, hpb]
                        rw [show (r0 != "all") = true from by
                          simp [hall], show (sr != er) = true from by simp [hne]]
                        rfl
                      rw [hrange] at hsafe
                      rw [this] at hsafe
                      exact Bool.noConfusion hsafe
                    subst hser
                    simp only []
                    by_cases hrows : sr < 0 ∨ sr < sr ∨ (s.content.length : Int) ≤ sr
                    · rw [if_pos hrows]
                      exact fun h => hwf h
                    · rw [if_neg hrows, if_pos trivial]
                      have hsrlt : sr.toNat < s.content.length := by omega
                      have hgets : pyGet s.content sr = some s.content[sr.toNat] :=
                        pyGet_some_of_lt s.content sr (by omega) hsrlt
                      simp only [hgets]
                      by_cases hcols : sc < 0 ∨ ec < sc ∨
                          ((s.content[sr.toNat]).length : Int) ≤ ec
                      · rw [if_pos hcols]
                        exact fun h => hwf h
                      · rw [if_neg hcols]
                        have hset := pySet_of_lt s.content sr
                          (pyTake s.content[sr.toNat] sc ++ pyDrop s.content[sr.toNat] (ec + 1))
                          (by omega) (by omega)
                        simp only [hset]
                        have hgn : pyGet (s.content.set sr.toNat
                            (pyTake s.content[sr.toNat] sc
                              ++ pyDrop s.content[sr.toNat] (ec + 1))) sr =
                            some (pyTake s.content[sr.toNat] sc
                              ++ pyDrop s.content[sr.toNat] (ec + 1)) := by
                          have h2 := pyGet_some_of_lt (s.content.set sr.toNat
                            (pyTake s.content[sr.toNat] sc
                              ++ pyDrop s.content[sr.toNat] (ec + 1))) sr (by omega)
                            (by simp only [List.length_set]; omega)
                          rw [h2, List.getElem_set_self]
                        have hlt1 : ((pyTake s.content[sr.toNat] sc).length : Int) = sc :=
                          length_pyTake_of_le _ _ (by omega) (by omega)
                        exact wf_mk_state s _ sr sc
                          (by simp only [List.length_set]; omega) (by omega)
                          (by simp only [List.length_set]; omega) (by omega)
                          _ hgn (by simp only [List.length_append]; omega)
      · have hst1 : do_del (a0 :: rest) s =
            (match pyInt a0 with
             | none => Res.err s "count must be an integer"
             | some count =>
                if count ≤ 0 then Res.err s "count must be positive"
                else delete_chars count s) := by
          simp [do_del, hact, hcontent, hrange]
        rw [hst1]
        cases hpi : pyInt a0 with
        | none => exact fun h => hwf h
        | some count =>
          simp only []
          by_cases hc : count ≤ 0
          · rw [if_pos hc]
            exact fun h => hwf h
          · rw [if_neg hc]
            exact wf_delete_chars count s hwf hact (by omega)

theorem copy_range_clipboard_only (rest : List String) (s : EState) :
    ∃ cl, (copy_range rest s).state = { s with clipboard := cl } := by
  simp only [copy_range]
  repeat' split
  all_goals exact ⟨_, rfl⟩

theorem do_copy_clipboard_only (args : List String) (s : EState) :
    ∃ cl, (do_copy args s).state = { s with clipboard := cl } := by
  unfold do_copy
  by_cases h1 : s.is_active = false
  · rw [if_pos h1]
    exact ⟨s.clipboard, rfl⟩
  · rw [if_neg h1]
    by_cases h2 : s.content = []
    · rw [if_pos h2]
      exact ⟨[], rfl⟩
    · rw [if_neg h2]
      cases args with
      | nil => exact ⟨joinNl s.content, rfl⟩
      | cons a0 rest =>
        show ∃ cl, (if a0 = "range" ∧ 2 ≤ rest.length then copy_range rest s
          else Res.err s "invalid copy command").state = _
        by_cases h3 : a0 = "range" ∧ 2 ≤ rest.length
        · rw [if_pos h3]
          exact copy_range_clipboard_only rest s
        · rw [if_neg h3]
          exact ⟨s.clipboard, rfl⟩

theorem wf_do_copy (args : List String) (s : EState) (hwf : WfState s) :
    WfState ((do_copy args s).state) := by
  obtain ⟨cl, hcl⟩ := do_copy_clipboard_only args s
  rw [hcl]
  exact fun h => hwf h

theorem wf_paste_content (cs : Line) (s : EState) (hwf : WfState s)
    (hact : s.is_active = true) : WfState ((paste_content cs s).state) := by
  obtain ⟨A, cur, B, hdec, hrow, hc0, hc1⟩ := wf_decomp s hwf hact
  have hget : pyGet s.content s.cursor.row = some cur := by
    rw [hdec, ← hrow]
    exact pyGet_append_cons A B cur
  rcases hsp : pySplitNl cs with _ | ⟨l0, rem⟩
  · exact absurd hsp (pySplitCh_ne_nil '\n' cs)
  · cases rem with
    | nil =>
      have hset : pySet s.content s.cursor.row
          (pyTake cur s.cursor.col ++ l0 ++ pyDrop cur s.cursor.col) =
          some (A ++ (pyTake cur s.cursor.col ++ l0 ++ pyDrop cur s.cursor.col) :: B) := by
        rw [hdec, ← hrow]
        exact pySet_append_cons A B cur _
      simp only [paste_content, hsp, hget, hset]
      have hgn : pyGet (A ++ (pyTake cur s.cursor.col ++ l0 ++ pyDrop cur s.cursor.col) :: B)
          s.cursor.row =
          some (pyTake cur s.cursor.col ++ l0 ++ pyDrop cur s.cursor.col) := by
        rw [← hrow]
        exact pyGet_append_cons A B _
      have hlt : ((pyTake cur s.cursor.col).length : Int) = s.cursor.col :=
        length_pyTake_of_le cur _ hc0 hc1
      exact wf_mk_state s _ s.cursor.row (s.cursor.col + (l0.length : Int))
        (by simp; omega) (by omega)
        (by rw [← hrow]; simp only [List.length_append, List.length_cons]; omega)
        (by omega) _ hgn (by simp only [List.length_append]; omega)
    | cons r rs =>
      have hset : pySet s.content s.cursor.row (pyTake cur s.cursor.col ++ l0) =
          some (A ++ (pyTake cur s.cursor.col ++ l0) :: B) := by
        rw [hdec, ← hrow]
        exact pySet_append_cons A B cur _
      have hfold : (r :: rs).reverse.foldl (fun c l => pyInsert c (s.cursor.row + 1) l)
          (A ++ (pyTake cur s.cursor.col ++ l0) :: B) =
          A ++ (pyTake cur s.cursor.col ++ l0) :: ((r :: rs) ++ B) := by
        rw [← hrow]
        exact foldl_pyInsert (r :: rs) A B _
      simp only [paste_content, hsp, hget, hset, hfold]
      rcases List.eq_nil_or_concat (r :: rs) with heq | ⟨rs2, lastl, heq⟩
      · exact absurd heq (by simp)
      · rw [List.concat_eq_append] at heq
        rw [heq]
        rw [List.getLast?_concat]
        have hpos : s.cursor.row + (((rs2 ++ [lastl]).length : Nat) : Int) =
            (((A ++ (pyTake cur s.cursor.col ++ l0) :: rs2).length : Nat) : Int) := by
          rw [← hrow]
          simp
        have hgl : pyGet (A ++ (pyTake cur s.cursor.col ++ l0) :: ((rs2 ++ [lastl]) ++ B))
            (s.cursor.row + (((rs2 ++ [lastl]).length : Nat) : Int)) = some lastl := by
          rw [hpos]
          rw [show A ++ (pyTake cur s.cursor.col ++ l0) :: ((rs2 ++ [lastl]) ++ B) =
            (A ++ (pyTake cur s.cursor.col ++ l0) :: rs2) ++ lastl :: B from by simp]
          exact pyGet_append_cons _ B lastl
        exact wf_mk_state s _ (s.cursor.row + (((rs2 ++ [lastl]).length : Nat) : Int))
          ((lastl.length : Nat) : Int)
          (by simp; omega) (by omega)
          (by rw [← hrow]; simp only [List.length_append, List.length_cons,
              List.length_singleton]; omega)
          (by omega) lastl hgl (by omega)

theorem wf_do_paste (args : List String) (s : EState) (hwf : WfState s)
    (hsafe : pasteRangeForm args = false) : WfState ((do_paste args s).state) := by
  cases hact : s.is_active with
  | false =>
    have hst : (do_paste args s).state = s := by simp [do_paste, hact, Res.state]
    rw [hst]
    exact hwf
  | true =>
    obtain ⟨hlen, hr0, hrlt, hc0, curl, hget, hcoll⟩ := hwf hact
    have hcontent : s.content ≠ [] := by
      intro h
      rw [h] at hlen
      simp at hlen
    by_cases hclip : s.clipboard = []
    · have hst : (do_paste args s).state = s := by simp [do_paste, hact, hclip, Res.state]
      rw [hst]
      exact hwf
    · cases args with
      | nil =>
        have hst : do_paste [] s = paste_content s.clipboard s := by
          simp [do_paste, hact, hclip, hcontent]
        rw [hst]
        exact wf_paste_content s.clipboard s hwf hact
      | cons a0 rest =>
        have hcond : ¬ (a0 = "range" ∧ 2 ≤ rest.length) := by
          intro ⟨hr, hl⟩
          subst hr
          rcases rest with _ | ⟨b0, rest2⟩
          · simp at hl
          · rcases rest2 with _ | ⟨c0, rest3⟩
            · simp at hl
            · simp [pasteRangeForm] at hsafe
        have hst : (do_paste (a0 :: rest) s).state = s := by
          simp [do_paste, hact, hclip, hcontent, hcond, Res.state]
        rw [hst]
        exact hwf

theorem wf_do_s (s : EState) (hwf : WfState s) : WfState ((do_s s).state) := by
  unfold do_s
  by_cases h1 : s.is_active = false
  · rw [if_pos h1]
    exact hwf
  · rw [if_neg h1]
    by_cases h2 : s.current_file = none
    · rw [if_pos h2]
      exact hwf
    · rw [if_neg h2]
      exact hwf

theorem wf_do_q (s : EState) (hwf : WfState s) : WfState ((do_q s).state) := by
  unfold do_q
  by_cases h1 : s.is_active = false
  · rw [if_pos h1]
    exact hwf
  · rw [if_neg h1]
    exact fun hh => absurd hh Bool.false_ne_true

theorem wf_do_qs (s : EState) (hwf : WfState s) : WfState ((do_qs s).state) := by
  unfold do_qs
  by_cases h1 : s.is_active = true
  · rw [if_pos h1]
    exact fun hh => absurd hh Bool.false_ne_true
  · rw [if_neg h1]
    exact hwf

theorem wf_step (c : Cmd) (s : EState) (hwf : WfState s) (hc : SafeCmd c) :
    WfState ((step c s).state) := by
  cases c with
  | copen fc f => exact wf_do_open fc f s hwf hc
  | move a => exact wf_do_move a s hwf
  | line a => exact wf_do_line a s hwf
  | brk => exact wf_do_break s hwf
  | write t => exact wf_do_write t s hwf
  | space a => exact wf_do_space a s hwf
  | del a => exact wf_do_del a s hwf hc
  | copy a => exact wf_do_copy a s hwf
  | paste a => exact wf_do_paste a s hwf hc
  | save => exact wf_do_s s hwf
  | quit => exact wf_do_q s hwf
  | savequit => exact wf_do_qs s hwf

theorem wf_initState : WfState initState :=
  fun hh => absurd hh Bool.false_ne_true

/-- C1 counterexample: the invariant does NOT hold of every reachable state.
`open` of an existing empty file (`readlines` of `""` is `[]`, `ve.py` 52-57)
produces an active state whose buffer has zero lines, refuting
`lineCount() >= 1` and `cursor.row < lineCount()`. -/
theorem C1_counterexample :
    ∃ s : EState, Reachable s ∧ s.is_active = true ∧ s.content.length = 0 :=
  ⟨(step (Cmd.copen (some []) "f") initState).state,
   Reachable.step _ _ Reachable.init, by decide, by decide⟩

/-- C1 (amended): in every state reachable using only commands whose
validation is intact — everything except `open` of an existing empty file,
cross-line `del range`, and `paste range` — an active buffer holds at least
one line, `0 <= cursor.row < lineCount()`, and
`0 <= cursor.col <= lineLength(cursor.row)`. -/
theorem C1_amended_invariant (s : EState) (h : ReachableSafe s) : WfState s := by
  induction h with
  | init => exact wf_initState
  | step c t hr hc ih => exact wf_step c t ih hc

/-- The amended C1 invariant, evaluated on the concrete state obtained by
creating a fresh file `f` (a safe command) from the initial state. -/
theorem C1_witness :
    WfState ((step (Cmd.copen none "f") initState).state) :=
  C1_amended_invariant _
    (ReachableSafe.step _ _ ReachableSafe.init (fun hh => Option.noConfusion hh))
